import Mathlib

/-!
Tetris: a shallow embedding of `tetrisboard.cpp`.

The widget class `TetrisBoard` is embedded as a record `State` of its data
members together with one Lean function per member function.

Modelling conventions.

* C++ `int` is the unbounded `Int`; `/` and `%` on `int` are the truncating
  `Int.tdiv` and `Int.tmod`.  Signed overflow, undefined in C++, wraps on the
  build; where that matters, in the arithmetic of `updateScore`, the second
  definition `updateScore32` reads `int` as the 32-bit two's-complement
  integer (`wrapInt` after every operation).  The two agree as long as all
  values fit (`updateScore32_eq_updateScore`).
* `std::vector` is `List`.  A read outside a vector is undefined in the
  source; here it yields a default (`0`, `false`, `[]`), and a write outside a
  vector changes nothing.  Statements that depend on an access being in range
  carry the range as a hypothesis.
* Every call of `rand()` is a parameter `rnd : Nat` of the function making it.
* `QTimer` is the pair (active, interval); `update()` only requests a repaint
  and is not a state change; the repaint itself is `paintEvent`.
-/

namespace TetrisBoard

/-! ## Constants (tetrisboard.h) -/

def BOARD_WIDTH : Nat := 10
def BOARD_HEIGHT : Nat := 20
def BLOCK_SIZE : Int := 30
def PIECE_SIZE : Nat := 4
def COMBO_DISPLAY_TIME : Int := 30

/-! ## Data members -/

/-- The type of `board`: rows of cells, `0` = empty, `1..7` = colours. -/
abbrev Board := List (List Int)

/-- The type of `Piece::shape`: a matrix of booleans indexed `[y][x]`. -/
abbrev Shape := List (List Bool)

/-- The struct `Piece`. -/
structure Piece where
  x : Int
  y : Int
  type : Nat
  rotation : Int
  shape : Shape
deriving DecidableEq

/-- The colours a combo display takes (`invalid` is a default-constructed `QColor`). -/
inductive ComboColor where
  | invalid
  | yellow
  | cyan
  | brightRed
deriving DecidableEq

/-- The struct `ComboDisplay`. -/
structure ComboDisplay where
  text : String
  color : ComboColor
  remainingTicks : Int
  position : Int × Int
deriving DecidableEq

/-- The observable part of the `QTimer` owned by the widget. -/
structure Timer where
  active : Bool
  interval : Int
deriving DecidableEq

/-- The data members of `TetrisBoard`. -/
structure State where
  timer : Timer
  board : Board
  currentPiece : Piece
  savedPiece : Piece
  hasSavedPiece : Bool
  score : Int
  level : Int
  linesCleared : Int
  gameOver : Bool
  currentCombo : ComboDisplay
deriving DecidableEq

/-- The keys `keyPressEvent` distinguishes. -/
inductive Key where
  | Left
  | Right
  | Down
  | Up
  | Space
  | S
  | Other
deriving DecidableEq

/-! ## Vector accesses -/

/-- Read `board[y][x]`. -/
def cellAt (b : Board) (y x : Nat) : Int := (b.getD y []).getD x 0

/-- Read `shape[y][x]`. -/
def shapeAt (s : Shape) (y x : Nat) : Bool := (s.getD y []).getD x false

/-- Write `m[i][j] = v`. -/
def setAt {α : Type} (m : List (List α)) (i j : Nat) (v : α) : List (List α) :=
  m.set i ((m.getD i []).set j v)

/-- Write `board[y][x] = v` with `int` indices. -/
def setCell (b : Board) (y x : Int) (v : Int) : Board :=
  if 0 ≤ y ∧ 0 ≤ x then setAt b y.toNat x.toNat v else b

/-- The value `std::vector<int>(BOARD_WIDTH, 0)`. -/
def emptyRow : List Int := List.replicate BOARD_WIDTH 0

/-- The value `std::vector<std::vector<int>>(BOARD_HEIGHT, std::vector<int>(BOARD_WIDTH, 0))`. -/
def emptyBoard : Board := List.replicate BOARD_HEIGHT emptyRow

/-! ## The piece catalogue and rotation -/

/-- The table `PIECES`: per type, one stored rotation of sixteen flags. -/
def PIECES : List (List (List Bool)) :=
  [ [[false, false, false, false,
      true,  true,  true,  true,
      false, false, false, false,
      false, false, false, false]],
    [[false, true,  true,  false,
      false, true,  true,  false,
      false, false, false, false,
      false, false, false, false]],
    [[false, true,  false, false,
      true,  true,  true,  false,
      false, false, false, false,
      false, false, false, false]],
    [[false, true,  true,  false,
      true,  true,  false, false,
      false, false, false, false,
      false, false, false, false]],
    [[true,  true,  false, false,
      false, true,  true,  false,
      false, false, false, false,
      false, false, false, false]],
    [[true,  false, false, false,
      true,  true,  true,  false,
      false, false, false, false,
      false, false, false, false]],
    [[false, false, true,  false,
      true,  true,  true,  false,
      false, false, false, false,
      false, false, false, false]] ]

/-- The first loop nest of `getRotatedShape`: the sixteen flags as a matrix. -/
def toMatrix (original : List Bool) : Shape :=
  (List.range PIECE_SIZE).map fun y =>
    (List.range PIECE_SIZE).map fun x => original.getD (y * PIECE_SIZE + x) false

/-- One pass of the rotation loop body: `rotated = shape`, then
`rotated[x][PIECE_SIZE-1-y] = shape[y][x]` for all `y`, `x`. -/
def rotateStep (shape : Shape) : Shape :=
  (List.range PIECE_SIZE).foldl
    (fun rotated y =>
      (List.range PIECE_SIZE).foldl
        (fun rotated x => setAt rotated x (PIECE_SIZE - 1 - y) (shapeAt shape y x))
        rotated)
    shape

/-- The loop `for (r = 0; r < rotation; r++) shape = rotated`. -/
def rotateLoop : Nat → Shape → Shape
  | 0, shape => shape
  | n + 1, shape => rotateLoop n (rotateStep shape)

/-- The function `getRotatedShape`. -/
def getRotatedShape (type : Nat) (rotation : Int) : Shape :=
  rotateLoop rotation.toNat (toMatrix ((PIECES.getD type []).getD 0 []))

/-! ## Collision and movement -/

/-- The function `checkCollision`. -/
def checkCollision (s : State) : Bool :=
  (List.range PIECE_SIZE).any fun y =>
    (List.range PIECE_SIZE).any fun x =>
      shapeAt s.currentPiece.shape y x &&
        (decide (s.currentPiece.x + (x : Int) < 0) ||
         decide (s.currentPiece.x + (x : Int) ≥ (BOARD_WIDTH : Int)) ||
         decide (s.currentPiece.y + (y : Int) ≥ (BOARD_HEIGHT : Int)) ||
         (decide (s.currentPiece.y + (y : Int) ≥ 0) &&
          decide (cellAt s.board (s.currentPiece.y + (y : Int)).toNat
                    (s.currentPiece.x + (x : Int)).toNat > 0)))

/-- The function `moveCurrentPiece`: the new state and the returned flag. -/
def moveCurrentPiece (dx dy : Int) (s : State) : State × Bool :=
  let moved : State :=
    { s with currentPiece := { s.currentPiece with x := s.currentPiece.x + dx,
                                                   y := s.currentPiece.y + dy } }
  if checkCollision moved then
    ({ moved with currentPiece := { moved.currentPiece with x := moved.currentPiece.x - dx,
                                                            y := moved.currentPiece.y - dy } },
     false)
  else (moved, true)

/-- The function `initPiece`. -/
def initPiece (type : Nat) (s : State) : State :=
  { s with currentPiece :=
      { x := (BOARD_WIDTH : Int).tdiv 2 - 2, y := 0, type := type, rotation := 0,
        shape := getRotatedShape type 0 } }

/-- The function `rotatePiece`. -/
def rotatePiece (s : State) : State :=
  let newRotation : Int := (s.currentPiece.rotation + 1).tmod 4
  let oldShape := s.currentPiece.shape
  let turned : State :=
    { s with currentPiece :=
        { s.currentPiece with shape := getRotatedShape s.currentPiece.type newRotation } }
  if checkCollision turned then
    { turned with currentPiece := { turned.currentPiece with shape := oldShape } }
  else
    { turned with currentPiece := { turned.currentPiece with rotation := newRotation } }

/-! ## Scoring -/

/-- The table `POINTS` of `updateScore`. -/
def POINTS : List Int := [0, 40, 100, 300, 1200]

/-- The read `POINTS[lines]`. -/
def pointsAt (lines : Int) : Int :=
  if 0 ≤ lines then POINTS.getD lines.toNat 0 else 0

/-- The function `updateScore`. -/
def updateScore (lines : Int) (s : State) : State :=
  let score := s.score + pointsAt lines * s.level
  let linesCleared := s.linesCleared + lines
  let level := 1 + linesCleared.tdiv 10
  let combo : ComboDisplay :=
    if lines > 1 then
      { text := "x" ++ toString lines,
        color := if lines = 2 then ComboColor.yellow
                 else if lines = 3 then ComboColor.cyan
                 else if lines = 4 then ComboColor.brightRed
                 else ComboColor.invalid,
        remainingTicks := COMBO_DISPLAY_TIME,
        position := (((BOARD_WIDTH : Int) * BLOCK_SIZE).tdiv 2,
                     ((BOARD_HEIGHT : Int) * BLOCK_SIZE).tdiv 2) }
    else s.currentCombo
  { s with score := score, linesCleared := linesCleared, level := level,
           currentCombo := combo,
           timer := { s.timer with interval := max 100 (500 - (level - 1) * 20) } }

/-- The least value of a 32-bit `int`. -/
def INT_MIN : Int := -2147483648

/-- The greatest value of a 32-bit `int`. -/
def INT_MAX : Int := 2147483647

/-- The value a 32-bit two's-complement `int` holds after an operation whose
exact result is `v`: `v` reduced modulo `2^32` into `[INT_MIN, INT_MAX]`. -/
def wrapInt (v : Int) : Int := (v + 2147483648) % 4294967296 - 2147483648

/-- The function `updateScore` with `int` read as the 32-bit integer of the
build: the result of every `+`, `-`, `*` and `/` is wrapped. -/
def updateScore32 (lines : Int) (s : State) : State :=
  let score := wrapInt (s.score + wrapInt (pointsAt lines * s.level))
  let linesCleared := wrapInt (s.linesCleared + lines)
  let level := wrapInt (1 + wrapInt (linesCleared.tdiv 10))
  let combo : ComboDisplay :=
    if lines > 1 then
      { text := "x" ++ toString lines,
        color := if lines = 2 then ComboColor.yellow
                 else if lines = 3 then ComboColor.cyan
                 else if lines = 4 then ComboColor.brightRed
                 else ComboColor.invalid,
        remainingTicks := COMBO_DISPLAY_TIME,
        position := (((BOARD_WIDTH : Int) * BLOCK_SIZE).tdiv 2,
                     ((BOARD_HEIGHT : Int) * BLOCK_SIZE).tdiv 2) }
    else s.currentCombo
  { s with score := score, linesCleared := linesCleared, level := level,
           currentCombo := combo,
           timer := { s.timer with
                      interval := max 100 (wrapInt (500 - wrapInt (wrapInt (level - 1) * 20))) } }

/-! ## Line clearing -/

/-- The inner scan of `clearLines`: no cell of row `y` is `0`. -/
def lineFull (b : Board) (y : Nat) : Bool :=
  (List.range BOARD_WIDTH).all fun x => cellAt b y x != 0

/-- The loop `for (moveY = y; moveY > 0; moveY--) board[moveY] = board[moveY - 1]`. -/
def shiftDown : Nat → Board → Board
  | 0, b => b
  | moveY + 1, b => shiftDown moveY (b.set (moveY + 1) (b.getD moveY []))

/-- The outer loop of `clearLines`, from row `y` upwards, with the board and the
local counter `linesCleared` as loop state.  One unit of fuel is one evaluation
of the loop condition; `none` means the fuel ran out. -/
def clearLoop : Nat → Int → Board → Nat → Option (Board × Nat)
  | 0, _, _, _ => none
  | fuel + 1, y, b, n =>
    if 0 ≤ y then
      if lineFull b y.toNat then
        clearLoop fuel (y + 1 - 1) ((shiftDown y.toNat b).set 0 emptyRow) (n + 1)
      else
        clearLoop fuel (y - 1) b n
    else some (b, n)

/-- Fuel that suffices for every board: at most `BOARD_HEIGHT` rows are cleared
and the row index is lowered `BOARD_HEIGHT` times. -/
def clearFuel : Nat := 2 * BOARD_HEIGHT + 1

/-- The function `clearLines`. -/
def clearLines (s : State) : State :=
  match clearLoop clearFuel ((BOARD_HEIGHT : Int) - 1) s.board 0 with
  | some (b, n) =>
    if n > 0 then updateScore (n : Int) { s with board := b } else { s with board := b }
  | none => s

/-! ## Locking, game over, new game -/

/-- The loop nest of `lockPiece` that writes the piece into the board. -/
def writePiece (p : Piece) (b : Board) : Board :=
  (List.range PIECE_SIZE).foldl
    (fun b y =>
      (List.range PIECE_SIZE).foldl
        (fun b x =>
          if shapeAt p.shape y x then
            if p.y + (y : Int) ≥ 0 then
              setCell b (p.y + (y : Int)) (p.x + (x : Int)) ((p.type : Int) + 1)
            else b
          else b)
        b)
    b

/-- The function `checkGameOver`. -/
def checkGameOver (s : State) : State :=
  if checkCollision s then
    { s with gameOver := true, timer := { s.timer with active := false } }
  else s

/-- The function `lockPiece`; `rnd` is the value of its `rand()` call. -/
def lockPiece (rnd : Nat) (s : State) : State :=
  let written : State := { s with board := writePiece s.currentPiece s.board }
  checkGameOver (initPiece (rnd % PIECES.length) (clearLines written))

/-- The function `startNewGame`; `rnd` is the value of its `rand()` call. -/
def startNewGame (rnd : Nat) (s : State) : State :=
  let reset : State :=
    { s with board := emptyBoard, score := 0, level := 1, linesCleared := 0,
             gameOver := false, hasSavedPiece := false,
             timer := { active := true, interval := 500 } }
  let spawned := initPiece (rnd % PIECES.length) reset
  { spawned with currentCombo := { spawned.currentCombo with remainingTicks := 0 } }

/-! ## Gravity, hard drop, hold -/

/-- The slot `updateGame`; `rnd` is the value of the `rand()` call of `lockPiece`. -/
def updateGame (rnd : Nat) (s : State) : State :=
  let r := moveCurrentPiece 0 1 s
  if !r.2 then lockPiece rnd r.1 else r.1

/-- The loop `while (moveCurrentPiece(0, 1)) {}` of `hardDrop`.  One unit of
fuel is one call of `moveCurrentPiece`; `none` means the fuel ran out. -/
def dropLoop : Nat → State → Option State
  | 0, _ => none
  | fuel + 1, s =>
    let r := moveCurrentPiece 0 1 s
    if r.2 then dropLoop fuel r.1 else some r.1

/-- The function `swapPiece`; `rnd` is the value of its `rand()` call. -/
def swapPiece (rnd : Nat) (s : State) : State :=
  if !s.hasSavedPiece then
    let saved : Piece :=
      { x := 0, y := 0, type := s.currentPiece.type, rotation := 0,
        shape := List.replicate PIECE_SIZE (List.replicate PIECE_SIZE false) }
    let saved : Piece := { saved with shape := getRotatedShape saved.type 0 }
    initPiece (rnd % PIECES.length) { s with savedPiece := saved, hasSavedPiece := true }
  else
    let savedType := s.savedPiece.type
    let saved : Piece := { s.savedPiece with type := s.currentPiece.type }
    let saved : Piece := { saved with shape := getRotatedShape saved.type 0 }
    { s with savedPiece := saved,
             currentPiece :=
               { x := (BOARD_WIDTH : Int).tdiv 2 - 2, y := 0, type := savedType,
                 rotation := 0, shape := getRotatedShape savedType 0 } }

/-- The function `hardDrop`; `rnd` is the value of the `rand()` call of
`lockPiece`.  A piece with an occupied cell collides at the latest when its
origin is at row `BOARD_HEIGHT`, so the fuel below is enough for the loop to
end whenever it ends at all; `none` is a loop that never ends. -/
def hardDrop (rnd : Nat) (s : State) : Option State :=
  (dropLoop (((BOARD_HEIGHT : Int) - s.currentPiece.y).toNat + 1) s).map (lockPiece rnd)

/-! ## Entry points of the widget -/

/-- The constructor.  The members `savedPiece` and `currentCombo` have no
initialiser in the source; their initial values are parameters. -/
def construct (rnd : Nat) (savedPiece : Piece) (currentCombo : ComboDisplay) : State :=
  initPiece (rnd % PIECES.length)
    { timer := { active := true, interval := 500 },
      board := emptyBoard,
      currentPiece := { x := 0, y := 0, type := 0, rotation := 0, shape := [] },
      savedPiece := savedPiece,
      hasSavedPiece := false,
      score := 0,
      level := 1,
      linesCleared := 0,
      gameOver := false,
      currentCombo := currentCombo }

/-- The function `keyPressEvent`; `rnd` is the value of the one `rand()` call
the handler can make. -/
def keyPressEvent (key : Key) (rnd : Nat) (s : State) : Option State :=
  if s.gameOver then
    if key = Key.Space then some (startNewGame rnd s) else some s
  else
    match key with
    | Key.Left => some (moveCurrentPiece (-1) 0 s).1
    | Key.Right => some (moveCurrentPiece 1 0 s).1
    | Key.Down => some (moveCurrentPiece 0 1 s).1
    | Key.Up => some (rotatePiece s)
    | Key.Space => hardDrop rnd s
    | Key.S => some (swapPiece rnd s)
    | Key.Other => some s

/-- The state change of `paintEvent`: a visible combo loses one tick. -/
def paintEvent (s : State) : State :=
  if s.currentCombo.remainingTicks > 0 then
    { s with currentCombo :=
        { s.currentCombo with remainingTicks := s.currentCombo.remainingTicks - 1 } }
  else s

/-- The signal `QTimer::timeout` connected to `updateGame`: it fires only while
the timer is active. -/
def timerTimeout (rnd : Nat) (s : State) : State :=
  if s.timer.active then updateGame rnd s else s

/-- What the event loop delivers to the widget. -/
inductive Event where
  | timeout
  | key (k : Key)
  | paint
deriving DecidableEq

/-- One delivered event; `rnd` is the value of the `rand()` call it may make. -/
def step (e : Event) (rnd : Nat) (s : State) : Option State :=
  match e with
  | Event.timeout => some (timerTimeout rnd s)
  | Event.key k => keyPressEvent k rnd s
  | Event.paint => some (paintEvent s)

/-- The states the running program passes through. -/
inductive Reachable : State → Prop where
  | init (rnd : Nat) (savedPiece : Piece) (currentCombo : ComboDisplay) :
      Reachable (construct rnd savedPiece currentCombo)
  | next {s s' : State} (e : Event) (rnd : Nat) :
      Reachable s → step e rnd s = some s' → Reachable s'

/-! ## Notions the statements use -/

/-- A row all of whose cells are non-zero. -/
def rowFull (row : List Int) : Bool := row.all fun c => c != 0

/-- A board of `BOARD_HEIGHT` rows of `BOARD_WIDTH` cells. -/
def IsBoard (b : Board) : Prop :=
  b.length = BOARD_HEIGHT ∧ ∀ row ∈ b, row.length = BOARD_WIDTH

/-- The number of non-empty cells of a board. -/
def occupied (b : Board) : Nat := (b.map fun row => row.countP fun c => c != 0).sum

/-- A row with at least one empty and at least one non-empty cell. -/
def rowMixed (row : List Int) : Bool := (row.any fun c => c == 0) && (row.any fun c => c != 0)

/-- Rows 5 and 7 are full and every other row of the board is partially filled. -/
def Rows57 (b : Board) : Prop :=
  rowFull (b.getD 5 []) = true ∧ rowFull (b.getD 7 []) = true ∧
    ∀ i, i < BOARD_HEIGHT → i ≠ 5 → i ≠ 7 → rowMixed (b.getD i []) = true

/-- A matrix of `PIECE_SIZE` rows of `PIECE_SIZE` flags. -/
def IsShape (m : Shape) : Prop :=
  m.length = PIECE_SIZE ∧ ∀ row ∈ m, row.length = PIECE_SIZE

/-- The collision test `rotatePiece` makes: the piece with the next rotation's
shape at the unchanged origin. -/
def rotateCollides (s : State) : Bool :=
  checkCollision
    { s with currentPiece :=
        { s.currentPiece with
          shape := getRotatedShape s.currentPiece.type ((s.currentPiece.rotation + 1).tmod 4) } }

/-- The lookup of the specification, 0→0, 1→40, 2→100, 3→300, 4→1200, as the
specification words it (nothing is said beyond 4). -/
def specScoreTable (lines : Int) : Int :=
  if lines = 0 then 0
  else if lines = 1 then 40
  else if lines = 2 then 100
  else if lines = 3 then 300
  else if lines = 4 then 1200
  else 0

/-- The shape placed with its origin at `(ox, oy)` fits: every occupied cell has
board-x in `[0, BOARD_WIDTH)`, board-y below `BOARD_HEIGHT`, and, when its
board-y is not negative, lies on an empty board cell. -/
def Fits (shape : Shape) (b : Board) (ox oy : Int) : Prop :=
  ∀ y : Nat, y < PIECE_SIZE → ∀ x : Nat, x < PIECE_SIZE → shapeAt shape y x = true →
    0 ≤ ox + (x : Int) ∧ ox + (x : Int) < (BOARD_WIDTH : Int) ∧
    oy + (y : Int) < (BOARD_HEIGHT : Int) ∧
    (0 ≤ oy + (y : Int) → cellAt b (oy + (y : Int)).toNat (ox + (x : Int)).toNat = 0)

instance (shape : Shape) (b : Board) (ox oy : Int) : Decidable (Fits shape b ox oy) := by
  unfold Fits
  infer_instance

/-- No cell of the board is negative (cells are `0` or a colour `1..7`). -/
def CellsNonneg (b : Board) : Prop := ∀ row ∈ b, ∀ c ∈ row, (0 : Int) ≤ c

instance (b : Board) : Decidable (CellsNonneg b) := by
  unfold CellsNonneg
  infer_instance

/-- The state with the origin of the active piece moved by `(dx, dy)`: what
`moveCurrentPiece` hands to `checkCollision`. -/
def translated (dx dy : Int) (s : State) : State :=
  { s with currentPiece := { s.currentPiece with x := s.currentPiece.x + dx,
                                                 y := s.currentPiece.y + dy } }

/-- What every reachable state satisfies about its counters, status and timer. -/
def CoreInv (s : State) : Prop :=
  0 ≤ s.linesCleared ∧ s.level = 1 + s.linesCleared.tdiv 10 ∧
    (s.gameOver = true → s.timer.active = false)

/-- A sequence of delivered events, each with the value of its `rand()` call. -/
def run : List (Event × Nat) → State → Option State
  | [], s => some s
  | (e, rnd) :: rest, s => (step e rnd s).bind (run rest)

/-- No row of the board is full. -/
def NoFull (b : Board) : Prop := ∀ row ∈ b, rowFull row = false

instance (b : Board) : Decidable (NoFull b) := by
  unfold NoFull
  infer_instance

/-- Every occupied cell of the piece lies on the board: board-x in
`[0, BOARD_WIDTH)` and board-y in `[0, BOARD_HEIGHT)`. -/
def PieceInGrid (p : Piece) : Prop :=
  ∀ y : Nat, y < PIECE_SIZE → ∀ x : Nat, x < PIECE_SIZE → shapeAt p.shape y x = true →
    0 ≤ p.x + (x : Int) ∧ p.x + (x : Int) < (BOARD_WIDTH : Int) ∧
    0 ≤ p.y + (y : Int) ∧ p.y + (y : Int) < (BOARD_HEIGHT : Int)

instance (p : Piece) : Decidable (PieceInGrid p) := by
  unfold PieceInGrid
  infer_instance

/-- An index pair `(row, column)` inside the board. -/
def InBoard (i : Int × Int) : Prop :=
  0 ≤ i.1 ∧ i.1 < (BOARD_HEIGHT : Int) ∧ 0 ≤ i.2 ∧ i.2 < (BOARD_WIDTH : Int)

/-- The index pairs `(boardY, boardX)` of the reads `board[boardY][boardX]` that
`checkCollision` can reach: the cell is occupied and the three range tests
before the read in the condition have failed and `boardY >= 0` has held. -/
def collisionReads (s : State) : List (Int × Int) :=
  (List.range PIECE_SIZE).flatMap fun y =>
    (List.range PIECE_SIZE).flatMap fun x =>
      if shapeAt s.currentPiece.shape y x &&
          !(decide (s.currentPiece.x + (x : Int) < 0) ||
            decide (s.currentPiece.x + (x : Int) ≥ (BOARD_WIDTH : Int)) ||
            decide (s.currentPiece.y + (y : Int) ≥ (BOARD_HEIGHT : Int))) &&
          decide (s.currentPiece.y + (y : Int) ≥ 0) then
        [(s.currentPiece.y + (y : Int), s.currentPiece.x + (x : Int))]
      else []

/-- The index pairs `(boardY, currentPiece.x + x)` of the writes
`board[boardY][currentPiece.x + x]` of `lockPiece`. -/
def lockWrites (p : Piece) : List (Int × Int) :=
  (List.range PIECE_SIZE).flatMap fun y =>
    (List.range PIECE_SIZE).flatMap fun x =>
      if shapeAt p.shape y x && decide (p.y + (y : Int) ≥ 0) then
        [(p.y + (y : Int), p.x + (x : Int))]
      else []

/-- The row indices the loop of `clearLines` uses, in order: `y` for the scan
of `board[y]`, then for a full row `moveY` and `moveY - 1` of every
`board[moveY] = board[moveY - 1]`, and `0` for `board[0]`. -/
def clearLoopRows : Nat → Int → Board → List Int
  | 0, _, _ => []
  | fuel + 1, y, b =>
    if 0 ≤ y then
      if lineFull b y.toNat then
        (y :: ((List.range y.toNat).reverse.flatMap fun m => [(m : Int) + 1, (m : Int)])
            ++ [0]) ++
          clearLoopRows fuel (y + 1 - 1) ((shiftDown y.toNat b).set 0 emptyRow)
      else
        y :: clearLoopRows fuel (y - 1) b
    else []

/-- The cached shape of a piece is the one `getRotatedShape` computes for its
type and rotation, the type is one of the seven and the rotation is in 0..3. -/
def PieceCached (p : Piece) : Prop :=
  p.type < PIECES.length ∧ 0 ≤ p.rotation ∧ p.rotation ≤ 3 ∧
    p.shape = getRotatedShape p.type p.rotation

/-- The cached-shape invariant of a state: for the active piece, and for the
held piece whenever there is one. -/
def ShapesCached (s : State) : Prop :=
  PieceCached s.currentPiece ∧
    (s.hasSavedPiece = true →
      s.savedPiece.type < PIECES.length ∧
        s.savedPiece.shape = getRotatedShape s.savedPiece.type 0)

/-- None of the three counters is lower in `s'` than in `s`. -/
def ScoreMono (s s' : State) : Prop :=
  s.score ≤ s'.score ∧ s.level ≤ s'.level ∧ s.linesCleared ≤ s'.linesCleared

/-- The tick interval of the specification, `max(100, 500 − (level − 1) × 20)`
milliseconds. -/
def tickInterval (level : Int) : Int := max 100 (500 - (level - 1) * 20)

/-- The state with the active piece `k` rows further down. -/
def dropped (k : Nat) (s : State) : State :=
  { s with currentPiece := { s.currentPiece with y := s.currentPiece.y + (k : Int) } }

/-- The slot `updateGame` run `n` times in a row, each with the draw `rnd` at hand. -/
def ticks (rnd : Nat) : Nat → State → State
  | 0, s => s
  | n + 1, s => ticks rnd n (updateGame rnd s)

/-- The number of occupied cells of a shape. -/
def cellCount (m : Shape) : Nat := (m.map fun row => row.countP fun c => c).sum

/-- The value fits a 32-bit `int`. -/
def FitsInt (v : Int) : Prop := INT_MIN ≤ v ∧ v ≤ INT_MAX

instance (v : Int) : Decidable (FitsInt v) := by
  unfold FitsInt
  infer_instance

/-! ## Sample states -/

/-- A state right after construction, with the given board put in place. -/
def sampleState (b : Board) : State :=
  { construct 0 { x := 0, y := 0, type := 0, rotation := 0, shape := [] }
      { text := "", color := ComboColor.invalid, remainingTicks := 0, position := (0, 0) }
    with board := b }

/-- Rows 5 and 7 full, row `i` otherwise holding the single value `i + 1` in column 0. -/
def sampleBoard57 : Board :=
  (List.range BOARD_HEIGHT).map fun i =>
    if i = 5 ∨ i = 7 then List.replicate BOARD_WIDTH 1
    else ((i : Int) + 1) :: List.replicate (BOARD_WIDTH - 1) 0

/-- Only the bottom row full, one block resting on it in column 0. -/
def sampleBoardBottom : Board :=
  List.replicate (BOARD_HEIGHT - 2) emptyRow ++
    [3 :: List.replicate (BOARD_WIDTH - 1) 0, List.replicate BOARD_WIDTH 2]

/-- Construction with an O piece, then ten hard drops: nine O pieces follow and
the last piece drawn is an I piece. -/
def stackedEvents : List (Event × Nat) :=
  List.replicate 9 (Event.key Key.Space, 1) ++ [(Event.key Key.Space, 0)]

/-- The state the events of `stackedEvents` lead to from construction: columns 4
and 5 are filled to the top and the new I piece collides where it spawns. -/
def stackedState : State :=
  (run stackedEvents (construct 1 { x := 0, y := 0, type := 0, rotation := 0, shape := [] }
      { text := "", color := ComboColor.invalid, remainingTicks := 0, position := (0, 0) })).getD
    (sampleState emptyBoard)

/-- Construction with an I piece, that piece dropped in columns 0..3, a second
I piece dropped in columns 4..7, and an O piece brought down to rest on the
floor in columns 8..9: locking it fills the bottom row. -/
def lineEvents : List (Event × Nat) :=
  List.replicate 3 (Event.key Key.Left, 0) ++ [(Event.key Key.Space, 0)] ++
    [(Event.key Key.Right, 0), (Event.key Key.Space, 1)] ++
    List.replicate 4 (Event.key Key.Right, 0) ++ List.replicate 18 (Event.key Key.Down, 0)

/-- The state the events of `lineEvents` lead to from construction. -/
def lineState : State :=
  (run lineEvents (construct 0 { x := 0, y := 0, type := 0, rotation := 0, shape := [] }
      { text := "", color := ComboColor.invalid, remainingTicks := 0, position := (0, 0) })).getD
    (sampleState emptyBoard)

/-- Construction with an I piece; five times: turn the I piece upright, move
it one column right and hard-drop it, which fills column 6 from the floor to
the top row; the fifth drop draws an O piece, which spawns free; then a hold
that draws an I piece. -/
def holdEvents : List (Event × Nat) :=
  (List.replicate 4
      [(Event.key Key.Up, 0), (Event.key Key.Right, 0), (Event.key Key.Space, 0)]).flatten ++
    [(Event.key Key.Up, 0), (Event.key Key.Right, 0), (Event.key Key.Space, 1)] ++
    [(Event.key Key.S, 0)]

/-- The state the events of `holdEvents` lead to from construction. -/
def heldState : State :=
  (run holdEvents (construct 0 { x := 0, y := 0, type := 0, rotation := 0, shape := [] }
      { text := "", color := ComboColor.invalid, remainingTicks := 0, position := (0, 0) })).getD
    (sampleState emptyBoard)

/-- A state with level 1 whose score is 100 below `INT_MAX`. -/
def nearMaxState : State :=
  { sampleState emptyBoard with score := 2147483547, level := 1 }

/-- A state with score 0 at level 2000000. -/
def highLevelState : State :=
  { sampleState emptyBoard with score := 0, level := 2000000 }

/-- A state late in a long game: 12000 lines cleared, hence level 1201, and a
score of 2147000000. -/
def lateGameState : State :=
  { sampleState emptyBoard with score := 2147000000, level := 1201, linesCleared := 12000 }

/-! ## Vector lemmas -/

theorem range_piece : List.range PIECE_SIZE = [0, 1, 2, 3] := rfl

theorem shiftDown_length (y : Nat) (b : Board) : (shiftDown y b).length = b.length := by
  induction y generalizing b with
  | zero => rfl
  | succ m ih => simp [shiftDown, ih]

theorem shiftDown_getElem? (y : Nat) (b : Board) (hy : y < b.length) (i : Nat) :
    (shiftDown y b)[i]? = if 1 ≤ i ∧ i ≤ y then b[i - 1]? else b[i]? := by
  induction y generalizing b with
  | zero =>
    have : ¬ (1 ≤ i ∧ i = 0) := by omega
    simp [shiftDown, this]
  | succ m ih =>
    have hm : m < (b.set (m + 1) (b.getD m [])).length := by simp; omega
    rw [shiftDown, ih _ hm]
    by_cases h1 : 1 ≤ i ∧ i ≤ m
    · have h2 : 1 ≤ i ∧ i ≤ m + 1 := by omega
      have h3 : m + 1 ≠ i - 1 := by omega
      simp [h1, h2, List.getElem?_set, h3]
    · by_cases h4 : i = m + 1
      · subst h4
        have hlt : m < b.length := by omega
        simp [List.getElem?_set, hy, List.getD_eq_getElem?_getD, List.getElem?_eq_getElem hlt]
      · have h2 : ¬ (1 ≤ i ∧ i ≤ m + 1) := by omega
        have h3 : m + 1 ≠ i := by omega
        simp [h1, h2, List.getElem?_set, h3]

theorem shiftDown_set (pre suf : Board) (r e : List Int) :
    (shiftDown pre.length (pre ++ r :: suf)).set 0 e = e :: (pre ++ suf) := by
  apply List.ext_getElem?
  intro i
  have hy : pre.length < (pre ++ r :: suf).length := by simp
  rw [List.getElem?_set]
  cases i with
  | zero => simp [shiftDown_length]
  | succ j =>
    simp only [Nat.zero_ne_add_one, if_false, List.getElem?_cons_succ]
    rw [shiftDown_getElem? _ _ hy]
    by_cases h : j + 1 ≤ pre.length
    · have h1 : 1 ≤ j + 1 ∧ j + 1 ≤ pre.length := by omega
      have hj : j < pre.length := by omega
      simp [h1, List.getElem?_append_left hj]
    · have h1 : ¬ (1 ≤ j + 1 ∧ j + 1 ≤ pre.length) := by omega
      have h2 : pre.length ≤ j + 1 := by omega
      have h3 : pre.length ≤ j := by omega
      simp only [h1, if_false]
      rw [List.getElem?_append_right h2, List.getElem?_append_right h3]
      have : j + 1 - pre.length = (j - pre.length) + 1 := by omega
      rw [this, List.getElem?_cons_succ]

/-! ## Line clearing -/

theorem all_range_getD (row : List Int) :
    ((List.range row.length).all fun x => row.getD x 0 != 0) = rowFull row := by
  rw [Bool.eq_iff_iff]
  simp only [rowFull, List.all_eq_true, List.mem_range]
  constructor
  · intro h c hc
    obtain ⟨i, hi, rfl⟩ := List.mem_iff_getElem.mp hc
    have := h i hi
    simpa [List.getD_eq_getElem?_getD, List.getElem?_eq_getElem hi] using this
  · intro h i hi
    have := h row[i] (List.getElem_mem hi)
    simpa [List.getD_eq_getElem?_getD, List.getElem?_eq_getElem hi] using this

theorem lineFull_append (pre suf : Board) (r : List Int) (hr : r.length = BOARD_WIDTH) :
    lineFull (pre ++ r :: suf) pre.length = rowFull r := by
  have : (pre ++ r :: suf).getD pre.length [] = r := by
    rw [List.getD_eq_getElem?_getD, List.getElem?_append_right (Nat.le_refl _)]
    simp
  unfold lineFull cellAt
  rw [this, ← hr]
  exact all_range_getD r

theorem rowFull_emptyRow : rowFull emptyRow = false := by decide

theorem clearLoop_append (fuel : Nat) (pre suf : Board) (n : Nat)
    (hrows : ∀ row ∈ pre, row.length = BOARD_WIDTH)
    (hfuel : pre.length + (pre.filter rowFull).length < fuel) :
    clearLoop fuel ((pre.length : Int) - 1) (pre ++ suf) n =
      some (List.replicate (pre.filter rowFull).length emptyRow ++
              pre.filter (fun row => !rowFull row) ++ suf,
            n + (pre.filter rowFull).length) := by
  induction fuel generalizing pre suf n with
  | zero => omega
  | succ fuel ih =>
    rcases List.eq_nil_or_concat pre with rfl | ⟨p, r, rfl⟩
    · simp [clearLoop]
    · rw [List.concat_eq_append] at hrows hfuel ⊢
      have hr : r.length = BOARD_WIDTH := hrows r (by simp)
      have hp : ∀ row ∈ p, row.length = BOARD_WIDTH := fun row h => hrows row (by simp [h])
      have hy : ((p ++ [r]).length : Int) - 1 = (p.length : Int) := by simp
      have hfull : lineFull (p ++ [r] ++ suf) p.length = rowFull r := by
        rw [List.append_assoc]; exact lineFull_append p suf r hr
      rw [hy, clearLoop]
      simp only [Int.natCast_nonneg, if_true, Int.toNat_ofNat, hfull]
      cases hf : rowFull r with
      | true =>
        have hsh : (shiftDown p.length (p ++ [r] ++ suf)).set 0 emptyRow
            = (emptyRow :: p) ++ suf := by
          rw [List.append_assoc]; exact shiftDown_set p suf r emptyRow
        have hy2 : (p.length : Int) + 1 - 1 = (((emptyRow :: p).length : Nat) : Int) - 1 := by
          simp
        have hrows2 : ∀ row ∈ emptyRow :: p, row.length = BOARD_WIDTH := by
          intro row h
          rcases List.mem_cons.mp h with rfl | h
          · simp [emptyRow]
          · exact hp row h
        have hfuel2 : (emptyRow :: p).length + ((emptyRow :: p).filter rowFull).length < fuel := by
          simp [List.filter_cons, rowFull_emptyRow, List.filter_append, hf] at hfuel ⊢
          omega
        simp only [if_true]
        rw [hsh, hy2, ih (emptyRow :: p) suf (n + 1) hrows2 hfuel2]
        simp [List.filter_cons, rowFull_emptyRow, List.filter_append, hf,
          List.replicate_succ', Nat.add_assoc, Nat.add_comm 1]
      | false =>
        have hy2 : (p.length : Int) - 1 = ((p.length : Nat) : Int) - 1 := rfl
        have hfuel2 : p.length + (p.filter rowFull).length < fuel := by
          simp [List.filter_append, hf] at hfuel
          omega
        have hb : p ++ [r] ++ suf = p ++ (r :: suf) := by simp
        simp only [Bool.false_eq_true, if_false]
        rw [hb, ih p (r :: suf) n hp hfuel2]
        simp [List.filter_append, hf]

theorem clearLoop_board (fuel : Nat) (b : Board) (hb : IsBoard b) (hfuel : clearFuel ≤ fuel) :
    clearLoop fuel ((BOARD_HEIGHT : Int) - 1) b 0 =
      some (List.replicate (b.filter rowFull).length emptyRow ++
              b.filter (fun row => !rowFull row),
            (b.filter rowFull).length) := by
  have hlen : (b.filter rowFull).length ≤ b.length := List.length_filter_le _ _
  have h := clearLoop_append fuel b [] 0 hb.2
    (by have := hb.1; simp only [clearFuel] at hfuel; omega)
  rw [hb.1] at h
  simpa using h

theorem clearLines_eq (s : State) (hb : IsBoard s.board) :
    clearLines s =
      if (s.board.filter rowFull).length > 0 then
        updateScore ((s.board.filter rowFull).length : Int)
          { s with board := List.replicate (s.board.filter rowFull).length emptyRow ++
                              s.board.filter (fun row => !rowFull row) }
      else
        { s with board := List.replicate (s.board.filter rowFull).length emptyRow ++
                            s.board.filter (fun row => !rowFull row) } := by
  unfold clearLines
  rw [clearLoop_board clearFuel s.board hb (Nat.le_refl _)]

/-- C1: on a 20x10 board the loop of `clearLines` ends (any fuel from `clearFuel`
on) having counted exactly the full rows of the input, and leaves that many
empty rows on top of the non-full input rows in their original order; a
positive count is what `updateScore` receives. -/
theorem clearLines_clears_full_rows (s : State) (hb : IsBoard s.board) :
    (∀ fuel, clearFuel ≤ fuel →
      clearLoop fuel ((BOARD_HEIGHT : Int) - 1) s.board 0 =
        some (List.replicate (s.board.filter rowFull).length emptyRow ++
                s.board.filter (fun row => !rowFull row),
              (s.board.filter rowFull).length)) ∧
    clearLines s =
      if (s.board.filter rowFull).length > 0 then
        updateScore ((s.board.filter rowFull).length : Int)
          { s with board := List.replicate (s.board.filter rowFull).length emptyRow ++
                              s.board.filter (fun row => !rowFull row) }
      else
        { s with board := List.replicate (s.board.filter rowFull).length emptyRow ++
                            s.board.filter (fun row => !rowFull row) } :=
  ⟨fun fuel h => clearLoop_board fuel s.board hb h, clearLines_eq s hb⟩

theorem isBoard_sampleBoardBottom : IsBoard sampleBoardBottom :=
  ⟨by decide, by decide⟩

/-- C1 at a sample board: the full bottom row goes, the block above it drops by
one row, and the count 1 reaches `updateScore`. -/
theorem clearLines_clears_full_rows_witness :
    IsBoard (sampleState sampleBoardBottom).board ∧
    clearLines (sampleState sampleBoardBottom) =
      updateScore 1
        { sampleState sampleBoardBottom with
          board := List.replicate (BOARD_HEIGHT - 1) emptyRow ++
                     [3 :: List.replicate (BOARD_WIDTH - 1) 0] } :=
  ⟨isBoard_sampleBoardBottom,
   (clearLines_clears_full_rows (sampleState sampleBoardBottom) isBoard_sampleBoardBottom).2⟩

theorem rows_of_board (b : Board) (h : b.length = BOARD_HEIGHT) :
    ∃ r0 r1 r2 r3 r4 r5 r6 r7 r8 r9 r10 r11 r12 r13 r14 r15 r16 r17 r18 r19,
      b = [r0, r1, r2, r3, r4, r5, r6, r7, r8, r9, r10, r11, r12, r13, r14, r15, r16, r17, r18, r19] := by
  match b, h with
  | [r0, r1, r2, r3, r4, r5, r6, r7, r8, r9, r10, r11, r12, r13, r14, r15, r16, r17, r18, r19], _ =>
    exact ⟨r0, r1, r2, r3, r4, r5, r6, r7, r8, r9, r10, r11, r12, r13, r14, r15, r16, r17, r18, r19, rfl⟩

theorem not_rowFull_of_mixed (row : List Int) (h : rowMixed row = true) :
    rowFull row = false := by
  simp only [rowMixed, Bool.and_eq_true, List.any_eq_true] at h
  obtain ⟨⟨c, hc, h0⟩, _⟩ := h
  cases hf : rowFull row with
  | false => rfl
  | true =>
    simp only [rowFull, List.all_eq_true] at hf
    have := hf c hc
    simp_all

theorem isBoard_sampleBoard57 : IsBoard sampleBoard57 := ⟨by decide, by decide⟩

theorem rows57_sampleBoard57 : Rows57 sampleBoard57 := by
  unfold Rows57
  decide

/-- C2 as stated fails: on a board with rows 5 and 7 full and all other rows
partial, two rows are cleared, but row 6 does not end up two rows lower. -/
theorem clearLines_rows57_row6_not_two_lower :
    ¬ ∀ b : Board, IsBoard b → Rows57 b →
        ∃ b', clearLoop clearFuel ((BOARD_HEIGHT : Int) - 1) b 0 = some (b', 2) ∧
          ∀ i, i < 7 → i ≠ 5 → b'.getD (i + 2) [] = b.getD i [] := by
  intro h
  obtain ⟨b', hb', hrow⟩ := h sampleBoard57 isBoard_sampleBoard57 rows57_sampleBoard57
  have h6 := hrow 6 (by decide) (by decide)
  have hrun : clearLoop clearFuel ((BOARD_HEIGHT : Int) - 1) sampleBoard57 0 =
      some (List.replicate 2 emptyRow ++ sampleBoard57.filter (fun row => !rowFull row), 2) := by
    decide
  rw [hrun] at hb'
  injection hb' with hb'
  injection hb' with hb' _
  subst hb'
  revert h6
  decide

/-- C2, amended: on a 20x10 board with rows 5 and 7 full and all other rows
partial, the loop of `clearLines` counts 2 rows and `updateScore` receives 2;
rows 0..4 end up two rows lower, row 6 ends up one row lower, rows 8..19 stay,
and rows 0 and 1 are empty. -/
theorem clearLines_rows57 (s : State) (hb : IsBoard s.board) (h : Rows57 s.board) :
    ∃ b', clearLoop clearFuel ((BOARD_HEIGHT : Int) - 1) s.board 0 = some (b', 2) ∧
      clearLines s = updateScore 2 { s with board := b' } ∧
      (∀ i, i < 5 → b'.getD (i + 2) [] = s.board.getD i []) ∧
      b'.getD 7 [] = s.board.getD 6 [] ∧
      (∀ i, 8 ≤ i → b'.getD i [] = s.board.getD i []) ∧
      b'.getD 0 [] = emptyRow ∧ b'.getD 1 [] = emptyRow := by
  obtain ⟨r0, r1, r2, r3, r4, r5, r6, r7, r8, r9, r10, r11, r12, r13, r14, r15, r16, r17, r18, r19, hrows⟩ := rows_of_board s.board hb.1
  have hloop := clearLoop_board clearFuel s.board hb (Nat.le_refl _)
  have hlines := clearLines_eq s hb
  rw [hrows] at h hloop hlines ⊢
  have h5 : rowFull r5 = true := h.1
  have h7 : rowFull r7 = true := h.2.1
  have h0 : rowFull r0 = false :=
    not_rowFull_of_mixed _ (h.2.2 0 (by decide) (by decide) (by decide))
  have h1 : rowFull r1 = false :=
    not_rowFull_of_mixed _ (h.2.2 1 (by decide) (by decide) (by decide))
  have h2 : rowFull r2 = false :=
    not_rowFull_of_mixed _ (h.2.2 2 (by decide) (by decide) (by decide))
  have h3 : rowFull r3 = false :=
    not_rowFull_of_mixed _ (h.2.2 3 (by decide) (by decide) (by decide))
  have h4 : rowFull r4 = false :=
    not_rowFull_of_mixed _ (h.2.2 4 (by decide) (by decide) (by decide))
  have h6 : rowFull r6 = false :=
    not_rowFull_of_mixed _ (h.2.2 6 (by decide) (by decide) (by decide))
  have h8 : rowFull r8 = false :=
    not_rowFull_of_mixed _ (h.2.2 8 (by decide) (by decide) (by decide))
  have h9 : rowFull r9 = false :=
    not_rowFull_of_mixed _ (h.2.2 9 (by decide) (by decide) (by decide))
  have h10 : rowFull r10 = false :=
    not_rowFull_of_mixed _ (h.2.2 10 (by decide) (by decide) (by decide))
  have h11 : rowFull r11 = false :=
    not_rowFull_of_mixed _ (h.2.2 11 (by decide) (by decide) (by decide))
  have h12 : rowFull r12 = false :=
    not_rowFull_of_mixed _ (h.2.2 12 (by decide) (by decide) (by decide))
  have h13 : rowFull r13 = false :=
    not_rowFull_of_mixed _ (h.2.2 13 (by decide) (by decide) (by decide))
  have h14 : rowFull r14 = false :=
    not_rowFull_of_mixed _ (h.2.2 14 (by decide) (by decide) (by decide))
  have h15 : rowFull r15 = false :=
    not_rowFull_of_mixed _ (h.2.2 15 (by decide) (by decide) (by decide))
  have h16 : rowFull r16 = false :=
    not_rowFull_of_mixed _ (h.2.2 16 (by decide) (by decide) (by decide))
  have h17 : rowFull r17 = false :=
    not_rowFull_of_mixed _ (h.2.2 17 (by decide) (by decide) (by decide))
  have h18 : rowFull r18 = false :=
    not_rowFull_of_mixed _ (h.2.2 18 (by decide) (by decide) (by decide))
  have h19 : rowFull r19 = false :=
    not_rowFull_of_mixed _ (h.2.2 19 (by decide) (by decide) (by decide))
  have hfull : List.filter rowFull [r0, r1, r2, r3, r4, r5, r6, r7, r8, r9, r10, r11, r12, r13, r14, r15, r16, r17, r18, r19] = [r5, r7] := by
    simp [List.filter_cons, h0, h1, h2, h3, h4, h5, h6, h7, h8, h9, h10, h11, h12, h13, h14, h15, h16, h17, h18, h19]
  have hrest : List.filter (fun row => !rowFull row) [r0, r1, r2, r3, r4, r5, r6, r7, r8, r9, r10, r11, r12, r13, r14, r15, r16, r17, r18, r19] =
      [r0, r1, r2, r3, r4, r6, r8, r9, r10, r11, r12, r13, r14, r15, r16, r17, r18, r19] := by
    simp [List.filter_cons, h0, h1, h2, h3, h4, h5, h6, h7, h8, h9, h10, h11, h12, h13, h14, h15, h16, h17, h18, h19]
  rw [hfull, hrest] at hloop hlines
  refine ⟨_, hloop, ?_, ?_, ?_, ?_, ?_, ?_⟩
  · simpa using hlines
  · intro i hi
    interval_cases i <;> rfl
  · rfl
  · intro i hi
    rcases Nat.lt_or_ge i 20 with hlt | hge
    · interval_cases i <;> rfl
    · rw [List.getD_eq_default _ _ (by simpa using hge),
        List.getD_eq_default _ _ (by simpa using hge)]
  · rfl
  · rfl

/-- C2, amended, at the sample board: the row that started at index 6 is at index 7. -/
theorem clearLines_rows57_witness :
    IsBoard (sampleState sampleBoard57).board ∧ Rows57 (sampleState sampleBoard57).board ∧
    ∃ b', clearLoop clearFuel ((BOARD_HEIGHT : Int) - 1) (sampleState sampleBoard57).board 0
        = some (b', 2) ∧
      clearLines (sampleState sampleBoard57) =
        updateScore 2 { sampleState sampleBoard57 with board := b' } ∧
      (∀ i, i < 5 → b'.getD (i + 2) [] = (sampleState sampleBoard57).board.getD i []) ∧
      b'.getD 7 [] = (sampleState sampleBoard57).board.getD 6 [] ∧
      (∀ i, 8 ≤ i → b'.getD i [] = (sampleState sampleBoard57).board.getD i []) ∧
      b'.getD 0 [] = emptyRow ∧ b'.getD 1 [] = emptyRow :=
  ⟨isBoard_sampleBoard57, rows57_sampleBoard57,
   clearLines_rows57 (sampleState sampleBoard57) isBoard_sampleBoard57 rows57_sampleBoard57⟩

/-! ## Locking -/

theorem foldl_invariant {α β : Type} (P : β → Prop) (f : β → α → β) (l : List α) (init : β)
    (h0 : P init) (hstep : ∀ b a, P b → P (f b a)) : P (l.foldl f init) := by
  induction l generalizing init with
  | nil => exact h0
  | cons a l ih => exact ih (f init a) (hstep init a h0)

theorem isBoard_setAt (b : Board) (i j : Nat) (v : Int) (hb : IsBoard b) :
    IsBoard (setAt b i j v) := by
  refine ⟨by simp [setAt, hb.1], ?_⟩
  intro row hrow
  rcases List.mem_or_eq_of_mem_set hrow with h | h
  · exact hb.2 row h
  · subst h
    rw [List.length_set, List.getD_eq_getElem?_getD]
    by_cases hi : i < b.length
    · rw [List.getElem?_eq_getElem hi]
      exact hb.2 _ (List.getElem_mem hi)
    · exfalso
      have : setAt b i j v = b := by
        unfold setAt
        exact List.set_eq_of_length_le (by omega)
      rw [this] at hrow
      have hlen := hb.2 _ hrow
      rw [List.getD_eq_default _ _ (by omega)] at hlen
      simp [BOARD_WIDTH] at hlen

theorem isBoard_setCell (b : Board) (y x v : Int) (hb : IsBoard b) :
    IsBoard (setCell b y x v) := by
  unfold setCell
  split
  · exact isBoard_setAt b _ _ v hb
  · exact hb

theorem isBoard_writePiece (p : Piece) (b : Board) (hb : IsBoard b) :
    IsBoard (writePiece p b) := by
  unfold writePiece
  apply foldl_invariant IsBoard _ _ _ hb
  intro b y hb
  apply foldl_invariant IsBoard _ _ _ hb
  intro b x hb
  split
  · split
    · exact isBoard_setCell b _ _ _ hb
    · exact hb
  · exact hb

theorem updateScore_board (lines : Int) (s : State) : (updateScore lines s).board = s.board :=
  rfl

theorem initPiece_board (type : Nat) (s : State) : (initPiece type s).board = s.board := rfl

theorem checkGameOver_board (s : State) : (checkGameOver s).board = s.board := by
  unfold checkGameOver
  split <;> rfl

theorem clearLines_board (s : State) (hb : IsBoard s.board) :
    (clearLines s).board =
      List.replicate (s.board.filter rowFull).length emptyRow ++
        s.board.filter (fun row => !rowFull row) := by
  rw [clearLines_eq s hb]
  split <;> rfl

theorem lockPiece_board (rnd : Nat) (s : State) (hb : IsBoard s.board) :
    (lockPiece rnd s).board =
      List.replicate ((writePiece s.currentPiece s.board).filter rowFull).length emptyRow ++
        (writePiece s.currentPiece s.board).filter (fun row => !rowFull row) := by
  unfold lockPiece
  rw [checkGameOver_board, initPiece_board]
  exact clearLines_board { s with board := writePiece s.currentPiece s.board }
    (isBoard_writePiece _ _ hb)

theorem occupied_append (a b : Board) : occupied (a ++ b) = occupied a + occupied b := by
  simp [occupied, List.sum_append]

theorem occupied_replicate_emptyRow (k : Nat) : occupied (List.replicate k emptyRow) = 0 := by
  induction k with
  | zero => rfl
  | succ k ih =>
    rw [List.replicate_succ]
    have h : occupied (emptyRow :: List.replicate k emptyRow)
        = (emptyRow.countP fun c => c != 0) + occupied (List.replicate k emptyRow) := by
      simp [occupied]
    rw [h, ih]
    decide

theorem occupied_filter (b : Board) (hrows : ∀ row ∈ b, row.length = BOARD_WIDTH) :
    occupied b =
      BOARD_WIDTH * (b.filter rowFull).length + occupied (b.filter fun row => !rowFull row) := by
  induction b with
  | nil => rfl
  | cons r b ih =>
    have ihb := ih (fun row h => hrows row (List.mem_cons_of_mem _ h))
    have hr : r.length = BOARD_WIDTH := hrows r (List.mem_cons_self _ _)
    have hcons : ∀ (x : List Int) (xs : Board),
        occupied (x :: xs) = (x.countP fun c => c != 0) + occupied xs := by
      intro x xs
      simp [occupied]
    cases hf : rowFull r with
    | true =>
      have hc : (r.countP fun c => c != 0) = BOARD_WIDTH := by
        rw [← hr, List.countP_eq_length]
        simpa [rowFull, List.all_eq_true] using hf
      simp only [List.filter_cons, hf, if_true, Bool.not_true, Bool.false_eq_true, if_false,
        List.length_cons]
      rw [hcons, hc, ihb]
      ring
    | false =>
      simp only [List.filter_cons, hf, if_true, Bool.not_false, Bool.false_eq_true, if_false]
      rw [hcons, hcons, ihb]
      ring

/-- C3: after `lockPiece` on a 20x10 board no row of the board is full; the
compaction loop, run on the board with the piece written in, ends with the
board `lockPiece` leaves and with the number of rows that were full as its
count; and the number of non-empty cells falls by `BOARD_WIDTH` times that
count. -/
theorem lockPiece_compaction (rnd : Nat) (s : State) (hb : IsBoard s.board) :
    (∀ row ∈ (lockPiece rnd s).board, rowFull row = false) ∧
    clearLoop clearFuel ((BOARD_HEIGHT : Int) - 1) (writePiece s.currentPiece s.board) 0 =
      some ((lockPiece rnd s).board,
            ((writePiece s.currentPiece s.board).filter rowFull).length) ∧
    occupied (lockPiece rnd s).board +
        BOARD_WIDTH * ((writePiece s.currentPiece s.board).filter rowFull).length =
      occupied (writePiece s.currentPiece s.board) := by
  have hw := isBoard_writePiece s.currentPiece s.board hb
  rw [lockPiece_board rnd s hb]
  refine ⟨?_, ?_, ?_⟩
  · intro row hrow
    rcases List.mem_append.mp hrow with h | h
    · rw [List.eq_of_mem_replicate h]
      exact rowFull_emptyRow
    · simpa using (List.mem_filter.mp h).2
  · exact clearLoop_board clearFuel _ hw (Nat.le_refl _)
  · rw [occupied_append, occupied_replicate_emptyRow, occupied_filter _ hw.2]
    omega

/-- C3 at a sample state: the I piece locks on row 1 above a full bottom row. -/
theorem lockPiece_compaction_witness :
    IsBoard (sampleState sampleBoardBottom).board ∧
    (∀ row ∈ (lockPiece 0 (sampleState sampleBoardBottom)).board, rowFull row = false) ∧
    clearLoop clearFuel ((BOARD_HEIGHT : Int) - 1)
        (writePiece (sampleState sampleBoardBottom).currentPiece
          (sampleState sampleBoardBottom).board) 0 =
      some ((lockPiece 0 (sampleState sampleBoardBottom)).board,
            ((writePiece (sampleState sampleBoardBottom).currentPiece
                (sampleState sampleBoardBottom).board).filter rowFull).length) ∧
    occupied (lockPiece 0 (sampleState sampleBoardBottom)).board +
        BOARD_WIDTH * ((writePiece (sampleState sampleBoardBottom).currentPiece
                        (sampleState sampleBoardBottom).board).filter rowFull).length =
      occupied (writePiece (sampleState sampleBoardBottom).currentPiece
                  (sampleState sampleBoardBottom).board) :=
  ⟨isBoard_sampleBoardBottom, lockPiece_compaction 0 (sampleState sampleBoardBottom)
    isBoard_sampleBoardBottom⟩

/-! ## Rotation -/

theorem shape_cells (m : Shape) (h : IsShape m) :
    ∃ a0 a1 a2 a3 b0 b1 b2 b3 c0 c1 c2 c3 d0 d1 d2 d3 : Bool,
      m = [[a0, a1, a2, a3], [b0, b1, b2, b3], [c0, c1, c2, c3], [d0, d1, d2, d3]] := by
  obtain ⟨hlen, hrows⟩ := h
  match m, hlen with
  | [ra, rb, rc, rd], _ =>
    have ha := hrows ra (by simp)
    have hb := hrows rb (by simp)
    have hc := hrows rc (by simp)
    have hd := hrows rd (by simp)
    match ra, ha, rb, hb, rc, hc, rd, hd with
    | [a0, a1, a2, a3], _, [b0, b1, b2, b3], _, [c0, c1, c2, c3], _, [d0, d1, d2, d3], _ =>
      exact ⟨a0, a1, a2, a3, b0, b1, b2, b3, c0, c1, c2, c3, d0, d1, d2, d3, rfl⟩

theorem rotateStep_cells (a0 a1 a2 a3 b0 b1 b2 b3 c0 c1 c2 c3 d0 d1 d2 d3 : Bool) :
    rotateStep [[a0, a1, a2, a3], [b0, b1, b2, b3], [c0, c1, c2, c3], [d0, d1, d2, d3]] =
      [[d0, c0, b0, a0], [d1, c1, b1, a1], [d2, c2, b2, a2], [d3, c3, b3, a3]] := by
  simp only [rotateStep, range_piece, List.foldl]
  simp [setAt, shapeAt, PIECE_SIZE]

theorem isShape_rotateStep (m : Shape) (h : IsShape m) : IsShape (rotateStep m) := by
  obtain ⟨a0, a1, a2, a3, b0, b1, b2, b3, c0, c1, c2, c3, d0, d1, d2, d3, rfl⟩ := shape_cells m h
  rw [rotateStep_cells]
  exact ⟨rfl, by simp [PIECE_SIZE]⟩

theorem isShape_toMatrix (original : List Bool) : IsShape (toMatrix original) :=
  ⟨rfl, by simp [toMatrix, range_piece, PIECE_SIZE]⟩

theorem rotateLoop_succ (n : Nat) (m : Shape) :
    rotateLoop (n + 1) m = rotateStep (rotateLoop n m) := by
  induction n generalizing m with
  | zero => rfl
  | succ n ih =>
    show rotateLoop (n + 1) (rotateStep m) = rotateStep (rotateLoop n (rotateStep m))
    exact ih (rotateStep m)

theorem isShape_rotateLoop (n : Nat) (m : Shape) (h : IsShape m) : IsShape (rotateLoop n m) := by
  induction n with
  | zero => exact h
  | succ n ih =>
    rw [rotateLoop_succ]
    exact isShape_rotateStep _ ih

theorem rotateStep_four (m : Shape) (h : IsShape m) :
    rotateStep (rotateStep (rotateStep (rotateStep m))) = m := by
  obtain ⟨a0, a1, a2, a3, b0, b1, b2, b3, c0, c1, c2, c3, d0, d1, d2, d3, rfl⟩ := shape_cells m h
  simp only [rotateStep_cells]

theorem rotateLoop_add_four (n : Nat) (m : Shape) (h : IsShape m) :
    rotateLoop (n + 4) m = rotateLoop n m := by
  show rotateLoop n (rotateStep (rotateStep (rotateStep (rotateStep m)))) = rotateLoop n m
  rw [rotateStep_four m h]

theorem isShape_getRotatedShape (type : Nat) (rotation : Int) :
    IsShape (getRotatedShape type rotation) :=
  isShape_rotateLoop _ _ (isShape_toMatrix _)

theorem getRotatedShape_add_four (type : Nat) (r : Int) (hr : 0 ≤ r) :
    getRotatedShape type (r + 4) = getRotatedShape type r := by
  unfold getRotatedShape
  have : (r + 4).toNat = r.toNat + 4 := by omega
  rw [this]
  exact rotateLoop_add_four _ _ (isShape_toMatrix _)

theorem getRotatedShape_succ (type : Nat) (r : Int) (hr : 0 ≤ r) :
    getRotatedShape type (r + 1) = rotateStep (getRotatedShape type r) := by
  unfold getRotatedShape
  have : (r + 1).toNat = r.toNat + 1 := by omega
  rw [this, rotateLoop_succ]

theorem rotateStep_shapeAt (m : Shape) (h : IsShape m) (x y : Nat)
    (hx : x < PIECE_SIZE) (hy : y < PIECE_SIZE) :
    shapeAt (rotateStep m) x (PIECE_SIZE - 1 - y) = shapeAt m y x := by
  obtain ⟨a0, a1, a2, a3, b0, b1, b2, b3, c0, c1, c2, c3, d0, d1, d2, d3, rfl⟩ := shape_cells m h
  rw [rotateStep_cells]
  simp only [PIECE_SIZE] at hx hy
  interval_cases x <;> interval_cases y <;> rfl

/-- C4: for each of the seven piece types and every rotation count `r ≥ 0`,
`getRotatedShape type (r + 4)` is the same matrix as `getRotatedShape type r`,
and `getRotatedShape type 0` is a 4x4 matrix whose cell `[y][x]` is flag
`y * 4 + x` of the catalogue entry `PIECES[type][0]`. -/
theorem getRotatedShape_period_four (type : Nat) (r : Int) (ht : type < PIECES.length)
    (hr : 0 ≤ r) :
    getRotatedShape type (r + 4) = getRotatedShape type r ∧
    IsShape (getRotatedShape type 0) ∧
    ∀ y x, y < PIECE_SIZE → x < PIECE_SIZE →
      shapeAt (getRotatedShape type 0) y x
        = ((PIECES.getD type []).getD 0 []).getD (y * PIECE_SIZE + x) false := by
  refine ⟨getRotatedShape_add_four type r hr, isShape_getRotatedShape type 0, ?_⟩
  intro y x hy hx
  have ht7 : type < 7 := ht
  simp only [PIECE_SIZE] at hx hy
  interval_cases type <;> interval_cases y <;> interval_cases x <;> rfl

/-- C4 at the T piece and rotation count 1. -/
theorem getRotatedShape_period_four_witness :
    getRotatedShape 2 (1 + 4) = getRotatedShape 2 1 ∧
    IsShape (getRotatedShape 2 0) ∧
    ∀ y x, y < PIECE_SIZE → x < PIECE_SIZE →
      shapeAt (getRotatedShape 2 0) y x
        = ((PIECES.getD 2 []).getD 0 []).getD (y * PIECE_SIZE + x) false :=
  getRotatedShape_period_four 2 1 (by decide) (by decide)

/-- C5 as stated fails: for the T piece the cell `[0][1]` of rotation 0 is set,
but the cell `[3 - 1][0]` of rotation 1 is not. -/
theorem getRotatedShape_quarter_turn_not_as_stated :
    ¬ ∀ type r x y, type < PIECES.length → 0 ≤ r → x < PIECE_SIZE → y < PIECE_SIZE →
        shapeAt (getRotatedShape type (r + 1)) (PIECE_SIZE - 1 - x) y
          = shapeAt (getRotatedShape type r) y x := by
  intro h
  exact absurd (h 2 0 1 0 (by decide) (by decide) (by decide) (by decide)) (by decide)

/-- C5, amended: for every piece type and every `r ≥ 0`, one quarter turn takes
the cell in column `x`, row `y` to column `3 - y`, row `x`:
`getRotatedShape type (r + 1) [x][3 - y] = getRotatedShape type r [y][x]`;
the top row becomes the right column, a clockwise turn. -/
theorem getRotatedShape_quarter_turn (type : Nat) (r : Int) (x y : Nat)
    (hr : 0 ≤ r) (hx : x < PIECE_SIZE) (hy : y < PIECE_SIZE) :
    shapeAt (getRotatedShape type (r + 1)) x (PIECE_SIZE - 1 - y)
      = shapeAt (getRotatedShape type r) y x := by
  rw [getRotatedShape_succ type r hr]
  exact rotateStep_shapeAt _ (isShape_getRotatedShape type r) x y hx hy

/-- C5, amended, at the T piece: its top cell `[0][1]` goes to `[1][3]`. -/
theorem getRotatedShape_quarter_turn_witness :
    shapeAt (getRotatedShape 2 (0 + 1)) 1 (PIECE_SIZE - 1 - 0) = shapeAt (getRotatedShape 2 0) 0 1 ∧
    shapeAt (getRotatedShape 2 0) 0 1 = true :=
  ⟨getRotatedShape_quarter_turn 2 0 1 0 (by decide) (by decide) (by decide), rfl⟩

theorem tmod_four_cycle (r : Int) (h0 : 0 ≤ r) (h3 : r ≤ 3) :
    ((((r + 1).tmod 4 + 1).tmod 4 + 1).tmod 4 + 1).tmod 4 = r := by
  have hcases : r = 0 ∨ r = 1 ∨ r = 2 ∨ r = 3 := by omega
  rcases hcases with rfl | rfl | rfl | rfl <;> decide

theorem rotatePiece_of_not_collides (s : State) (h : rotateCollides s = false) :
    rotatePiece s =
      { s with currentPiece :=
          { s.currentPiece with
            shape := getRotatedShape s.currentPiece.type ((s.currentPiece.rotation + 1).tmod 4),
            rotation := (s.currentPiece.rotation + 1).tmod 4 } } := by
  unfold rotateCollides at h
  unfold rotatePiece
  simp only [h, Bool.false_eq_true, if_false]

/-- C6: if the cached shape of the active piece is `getRotatedShape type rotation`
with `rotation` in 0..3 and none of four consecutive `rotatePiece` calls finds a
collision, the fourth call gives back the original state: shape, rotation index
and origin of the active piece, and everything else. -/
theorem rotatePiece_four_times (s : State)
    (hshape : s.currentPiece.shape
      = getRotatedShape s.currentPiece.type s.currentPiece.rotation)
    (hr0 : 0 ≤ s.currentPiece.rotation) (hr3 : s.currentPiece.rotation ≤ 3)
    (h1 : rotateCollides s = false)
    (h2 : rotateCollides (rotatePiece s) = false)
    (h3 : rotateCollides (rotatePiece (rotatePiece s)) = false)
    (h4 : rotateCollides (rotatePiece (rotatePiece (rotatePiece s))) = false) :
    rotatePiece (rotatePiece (rotatePiece (rotatePiece s))) = s := by
  rw [rotatePiece_of_not_collides _ h4, rotatePiece_of_not_collides _ h3,
    rotatePiece_of_not_collides _ h2, rotatePiece_of_not_collides _ h1]
  clear h1 h2 h3 h4
  obtain ⟨timer, board, ⟨x, y, type, rotation, shape⟩, saved, has, score, level, lines, over,
    combo⟩ := s
  simp only at hshape hr0 hr3 ⊢
  have hcycle : ((((rotation + 1).tmod 4 + 1).tmod 4 + 1).tmod 4 + 1).tmod 4 = rotation :=
    tmod_four_cycle rotation hr0 hr3
  rw [hcycle, ← hshape]

/-- C6 at the freshly constructed I piece on an empty board. -/
theorem rotatePiece_four_times_witness :
    rotatePiece (rotatePiece (rotatePiece (rotatePiece (sampleState emptyBoard))))
      = sampleState emptyBoard :=
  rotatePiece_four_times (sampleState emptyBoard) rfl (by decide) (by decide)
    (by decide) (by decide) (by decide) (by decide)

/-! ## Scoring -/

/-- With `int` unbounded: for `lines` in 0..4, `updateScore` adds the
specification's table value for `lines` times the level held before the call. -/
theorem updateScore_score_delta (lines : Int) (s : State) (h0 : 0 ≤ lines) (h4 : lines ≤ 4) :
    (updateScore lines s).score = s.score + specScoreTable lines * s.level ∧
    (s.level = 1 → (updateScore 1 s).score = s.score + 40) ∧
    (s.level = 1 → (updateScore 2 s).score = s.score + 100) ∧
    (s.level = 3 → (updateScore 3 s).score = s.score + 900) ∧
    (s.level = 5 → (updateScore 4 s).score = s.score + 6000) := by
  refine ⟨?_, ?_, ?_, ?_, ?_⟩
  · interval_cases lines <;> simp [updateScore, pointsAt, POINTS, specScoreTable]
  all_goals
    intro h
    simp [updateScore, pointsAt, POINTS, h]

/-- With `int` unbounded, four lines at level 5 add 6000. -/
theorem updateScore_score_delta_witness :
    (updateScore 4 { sampleState emptyBoard with level := 5 }).score
      = (sampleState emptyBoard).score + 6000 :=
  (updateScore_score_delta 4 { sampleState emptyBoard with level := 5 }
    (by decide) (by decide)).1

/-! ## Reachable states -/

theorem reachable_run (evs : List (Event × Nat)) (s s' : State) (hs : Reachable s)
    (h : run evs s = some s') : Reachable s' := by
  induction evs generalizing s with
  | nil =>
    simp only [run, Option.some.injEq] at h
    exact h ▸ hs
  | cons ev rest ih =>
    obtain ⟨e, rnd⟩ := ev
    simp only [run] at h
    cases hstep : step e rnd s with
    | none => simp [hstep] at h
    | some t =>
      rw [hstep] at h
      exact ih t (Reachable.next e rnd hs hstep) h

theorem run_stackedEvents :
    run stackedEvents (construct 1 { x := 0, y := 0, type := 0, rotation := 0, shape := [] }
      { text := "", color := ComboColor.invalid, remainingTicks := 0, position := (0, 0) })
    = some stackedState := by
  decide

theorem reachable_stackedState : Reachable stackedState :=
  reachable_run _ _ _ (Reachable.init _ _ _) run_stackedEvents

theorem coreInv_moveCurrentPiece (dx dy : Int) (s : State) (h : CoreInv s) :
    CoreInv (moveCurrentPiece dx dy s).1 := by
  simp only [moveCurrentPiece]
  split <;> exact h

theorem coreInv_rotatePiece (s : State) (h : CoreInv s) : CoreInv (rotatePiece s) := by
  simp only [rotatePiece]
  split <;> exact h

theorem coreInv_swapPiece (rnd : Nat) (s : State) (h : CoreInv s) :
    CoreInv (swapPiece rnd s) := by
  unfold swapPiece
  split <;> exact h

theorem coreInv_paintEvent (s : State) (h : CoreInv s) : CoreInv (paintEvent s) := by
  unfold paintEvent
  split <;> exact h

theorem coreInv_initPiece (type : Nat) (s : State) (h : CoreInv s) :
    CoreInv (initPiece type s) := h

theorem coreInv_updateScore (lines : Int) (s : State) (hl : 0 ≤ lines) (h : CoreInv s) :
    CoreInv (updateScore lines s) :=
  ⟨Int.add_nonneg h.1 hl, rfl, h.2.2⟩

theorem coreInv_clearLines (s : State) (h : CoreInv s) : CoreInv (clearLines s) := by
  unfold clearLines
  split
  · split
    · exact coreInv_updateScore _ _ (Int.natCast_nonneg _) h
    · exact h
  · exact h

theorem coreInv_checkGameOver (s : State) (h : CoreInv s) : CoreInv (checkGameOver s) := by
  unfold checkGameOver
  split
  · exact ⟨h.1, h.2.1, fun _ => rfl⟩
  · exact h

theorem coreInv_lockPiece (rnd : Nat) (s : State) (h : CoreInv s) :
    CoreInv (lockPiece rnd s) := by
  unfold lockPiece
  exact coreInv_checkGameOver _ (coreInv_initPiece _ _ (coreInv_clearLines _ h))

theorem coreInv_updateGame (rnd : Nat) (s : State) (h : CoreInv s) :
    CoreInv (updateGame rnd s) := by
  simp only [updateGame]
  split
  · exact coreInv_lockPiece _ _ (coreInv_moveCurrentPiece 0 1 s h)
  · exact coreInv_moveCurrentPiece 0 1 s h

theorem coreInv_dropLoop (fuel : Nat) (s s' : State) (h : CoreInv s)
    (hrun : dropLoop fuel s = some s') : CoreInv s' := by
  induction fuel generalizing s with
  | zero => simp [dropLoop] at hrun
  | succ fuel ih =>
    simp only [dropLoop] at hrun
    split at hrun
    · exact ih _ (coreInv_moveCurrentPiece 0 1 s h) hrun
    · simp only [Option.some.injEq] at hrun
      exact hrun ▸ coreInv_moveCurrentPiece 0 1 s h

theorem coreInv_hardDrop (rnd : Nat) (s s' : State) (h : CoreInv s)
    (hrun : hardDrop rnd s = some s') : CoreInv s' := by
  unfold hardDrop at hrun
  obtain ⟨t, ht, rfl⟩ := Option.map_eq_some'.mp hrun
  exact coreInv_lockPiece rnd t (coreInv_dropLoop _ s t h ht)

theorem coreInv_startNewGame (rnd : Nat) (s : State) : CoreInv (startNewGame rnd s) :=
  ⟨Int.le_refl 0, rfl, fun h => Bool.noConfusion (h : false = true)⟩

theorem coreInv_construct (rnd : Nat) (savedPiece : Piece) (currentCombo : ComboDisplay) :
    CoreInv (construct rnd savedPiece currentCombo) :=
  ⟨Int.le_refl 0, rfl, fun h => Bool.noConfusion (h : false = true)⟩

theorem coreInv_keyPressEvent (k : Key) (rnd : Nat) (s s' : State) (h : CoreInv s)
    (hrun : keyPressEvent k rnd s = some s') : CoreInv s' := by
  unfold keyPressEvent at hrun
  split at hrun
  · split at hrun <;> simp only [Option.some.injEq] at hrun <;> subst hrun
    · exact coreInv_startNewGame rnd s
    · exact h
  · cases k <;> simp only [Option.some.injEq] at hrun
    · exact hrun ▸ coreInv_moveCurrentPiece _ _ s h
    · exact hrun ▸ coreInv_moveCurrentPiece _ _ s h
    · exact hrun ▸ coreInv_moveCurrentPiece _ _ s h
    · exact hrun ▸ coreInv_rotatePiece s h
    · exact coreInv_hardDrop rnd s s' h hrun
    · exact hrun ▸ coreInv_swapPiece rnd s h
    · exact hrun ▸ h

theorem coreInv_step (e : Event) (rnd : Nat) (s s' : State) (h : CoreInv s)
    (hrun : step e rnd s = some s') : CoreInv s' := by
  cases e with
  | timeout =>
    simp only [step, Option.some.injEq] at hrun
    subst hrun
    unfold timerTimeout
    split
    · exact coreInv_updateGame rnd s h
    · exact h
  | key k => exact coreInv_keyPressEvent k rnd s s' h hrun
  | paint =>
    simp only [step, Option.some.injEq] at hrun
    exact hrun ▸ coreInv_paintEvent s h

theorem reachable_coreInv (s : State) (h : Reachable s) : CoreInv s := by
  induction h with
  | init rnd savedPiece currentCombo => exact coreInv_construct rnd savedPiece currentCombo
  | next e rnd _ hstep ih => exact coreInv_step e rnd _ _ ih hstep

theorem startNewGame_eq_construct (rnd : Nat) (s : State) :
    startNewGame rnd s =
      construct rnd s.savedPiece { s.currentCombo with remainingTicks := 0 } := rfl

theorem reachable_startNewGame (rnd : Nat) (s : State) : Reachable (startNewGame rnd s) := by
  rw [startNewGame_eq_construct]
  exact Reachable.init _ _ _

/-- C8: in every reachable state `level = 1 + ⌊linesCleared / 10⌋`; so with 10,
19, 20 and 29 lines cleared the level is 2, 2, 3 and 3. -/
theorem reachable_level (s : State) (h : Reachable s) :
    s.level = 1 + s.linesCleared / 10 ∧
    (s.linesCleared = 10 → s.level = 2) ∧
    (s.linesCleared = 19 → s.level = 2) ∧
    (s.linesCleared = 20 → s.level = 3) ∧
    (s.linesCleared = 29 → s.level = 3) := by
  obtain ⟨hn, hl, _⟩ := reachable_coreInv s h
  have hfloor : s.level = 1 + s.linesCleared / 10 := by
    rw [hl, Int.tdiv_eq_ediv hn (by decide)]
  refine ⟨hfloor, ?_, ?_, ?_, ?_⟩ <;> intro h' <;> rw [hfloor, h'] <;> decide

/-- C8 at the state after construction and ten hard drops. -/
theorem reachable_level_witness :
    Reachable stackedState ∧
    stackedState.level = 1 + stackedState.linesCleared / 10 ∧
    (stackedState.linesCleared = 10 → stackedState.level = 2) ∧
    (stackedState.linesCleared = 19 → stackedState.level = 2) ∧
    (stackedState.linesCleared = 20 → stackedState.level = 3) ∧
    (stackedState.linesCleared = 29 → stackedState.level = 3) :=
  ⟨reachable_stackedState, reachable_level stackedState reachable_stackedState⟩

/-! ## Game over -/

theorem cellAt_nonneg (b : Board) (hb : CellsNonneg b) (y x : Nat) : 0 ≤ cellAt b y x := by
  unfold cellAt
  by_cases hy : y < b.length
  · have hrow : b.getD y [] = b[y] := by
      rw [List.getD_eq_getElem?_getD, List.getElem?_eq_getElem hy, Option.getD_some]
    rw [hrow]
    by_cases hx : x < b[y].length
    · have hcell : b[y].getD x 0 = b[y][x] := by
        rw [List.getD_eq_getElem?_getD, List.getElem?_eq_getElem hx, Option.getD_some]
      rw [hcell]
      exact hb _ (List.getElem_mem hy) _ (List.getElem_mem hx)
    · rw [List.getD_eq_default _ _ (by omega)]
  · rw [List.getD_eq_default b _ (by omega)]
    exact Int.le_refl 0

theorem checkCollision_eq_false_iff (s : State) (hb : CellsNonneg s.board) :
    checkCollision s = false ↔
      Fits s.currentPiece.shape s.board s.currentPiece.x s.currentPiece.y := by
  unfold checkCollision Fits
  rw [List.any_eq_false]
  constructor
  · intro h y hy x hx hcell
    have h1 := h y (List.mem_range.mpr hy)
    rw [Bool.not_eq_true, List.any_eq_false] at h1
    have h2 := h1 x (List.mem_range.mpr hx)
    simp only [hcell, Bool.true_and, Bool.not_eq_true, Bool.or_eq_false_iff,
      Bool.and_eq_false_imp, decide_eq_false_iff_not, decide_eq_true_eq] at h2
    obtain ⟨⟨⟨hx0, hx1⟩, hy1⟩, hfree⟩ := h2
    refine ⟨by omega, by omega, by omega, fun hy0 => ?_⟩
    have hc := hfree hy0
    have hn := cellAt_nonneg s.board hb (s.currentPiece.y + (y : Int)).toNat
      (s.currentPiece.x + (x : Int)).toNat
    omega
  · intro h y hy
    rw [Bool.not_eq_true, List.any_eq_false]
    intro x hx
    rw [Bool.not_eq_true]
    cases hcell : shapeAt s.currentPiece.shape y x with
    | false => rfl
    | true =>
      obtain ⟨hx0, hx1, hy1, hfree⟩ := h y (List.mem_range.mp hy) x (List.mem_range.mp hx) hcell
      simp only [Bool.true_and, Bool.or_eq_false_iff, Bool.and_eq_false_imp,
        decide_eq_false_iff_not, decide_eq_true_eq]
      refine ⟨⟨⟨by omega, by omega⟩, by omega⟩, fun hy0 => ?_⟩
      rw [hfree hy0]
      decide

/-- C10: on a board without negative cells, `moveCurrentPiece dx dy` returns
true exactly when the active shape fits at the origin `(x + dx, y + dy)`; when
it returns true only the origin changes, to `(x + dx, y + dy)`; when it returns
false the state is the one before the call. -/
theorem moveCurrentPiece_spec (dx dy : Int) (s : State) (hb : CellsNonneg s.board) :
    ((moveCurrentPiece dx dy s).2 = true ↔
      Fits s.currentPiece.shape s.board (s.currentPiece.x + dx) (s.currentPiece.y + dy)) ∧
    ((moveCurrentPiece dx dy s).2 = true →
      (moveCurrentPiece dx dy s).1 =
        { s with currentPiece := { s.currentPiece with x := s.currentPiece.x + dx,
                                                       y := s.currentPiece.y + dy } }) ∧
    ((moveCurrentPiece dx dy s).2 = false → (moveCurrentPiece dx dy s).1 = s) := by
  have hiff := checkCollision_eq_false_iff
    { s with currentPiece := { s.currentPiece with x := s.currentPiece.x + dx,
                                                   y := s.currentPiece.y + dy } } hb
  simp only at hiff
  simp only [moveCurrentPiece]
  cases hc : checkCollision
      { s with currentPiece := { s.currentPiece with x := s.currentPiece.x + dx,
                                                     y := s.currentPiece.y + dy } } with
  | false =>
    simp only [Bool.false_eq_true, if_false]
    exact ⟨⟨fun _ => hiff.mp hc, fun _ => trivial⟩, fun _ => trivial,
      fun h => Bool.noConfusion (h : true = false)⟩
  | true =>
    have hnot : ¬ Fits s.currentPiece.shape s.board (s.currentPiece.x + dx)
        (s.currentPiece.y + dy) := by
      intro hf
      rw [hiff.mpr hf] at hc
      exact absurd hc (by decide)
    simp only [if_true]
    refine ⟨⟨fun h => Bool.noConfusion (h : false = true), fun h => absurd h hnot⟩,
      fun h => Bool.noConfusion (h : false = true), fun _ => ?_⟩
    obtain ⟨timer, board, ⟨x, y, type, rotation, shape⟩, saved, has, score, level, lines,
      over, combo⟩ := s
    simp

theorem cellsNonneg_emptyBoard : CellsNonneg emptyBoard := by decide

/-- C10 at the freshly constructed I piece on an empty board, one step right. -/
theorem moveCurrentPiece_spec_witness :
    CellsNonneg (sampleState emptyBoard).board ∧
    (moveCurrentPiece 1 0 (sampleState emptyBoard)).2 = true ∧
    (moveCurrentPiece 1 0 (sampleState emptyBoard)).1.currentPiece.x = 4 ∧
    (moveCurrentPiece 1 0 (sampleState emptyBoard)).1.currentPiece.y = 0 :=
  have h := moveCurrentPiece_spec 1 0 (sampleState emptyBoard) cellsNonneg_emptyBoard
  have hret : (moveCurrentPiece 1 0 (sampleState emptyBoard)).2 = true := h.1.mpr (by decide)
  ⟨cellsNonneg_emptyBoard, hret, by rw [h.2.1 hret]; decide, by rw [h.2.1 hret]; decide⟩

/-! ## The fuel of the loops is enough -/

theorem moveCurrentPiece_cases (dx dy : Int) (s : State) :
    (checkCollision (translated dx dy s) = true ∧ moveCurrentPiece dx dy s = (s, false)) ∨
    (checkCollision (translated dx dy s) = false ∧
      moveCurrentPiece dx dy s = (translated dx dy s, true)) := by
  simp only [moveCurrentPiece, translated]
  cases hc : checkCollision
      { s with currentPiece := { s.currentPiece with x := s.currentPiece.x + dx,
                                                     y := s.currentPiece.y + dy } } with
  | false => simp
  | true =>
    obtain ⟨timer, board, ⟨x, y, type, rotation, shape⟩, saved, has, score, level, lines,
      over, combo⟩ := s
    simp

theorem checkCollision_occupied (s : State) (h : checkCollision s = true) :
    ∃ y x, y < PIECE_SIZE ∧ x < PIECE_SIZE ∧ shapeAt s.currentPiece.shape y x = true := by
  unfold checkCollision at h
  rw [List.any_eq_true] at h
  obtain ⟨y, hy, h⟩ := h
  rw [List.any_eq_true] at h
  obtain ⟨x, hx, h⟩ := h
  rw [Bool.and_eq_true] at h
  exact ⟨y, x, List.mem_range.mp hy, List.mem_range.mp hx, h.1⟩

theorem checkCollision_false_below (s : State) (h : checkCollision s = false) (y x : Nat)
    (hy : y < PIECE_SIZE) (hx : x < PIECE_SIZE) (hcell : shapeAt s.currentPiece.shape y x = true) :
    s.currentPiece.y + (y : Int) < (BOARD_HEIGHT : Int) := by
  unfold checkCollision at h
  rw [List.any_eq_false] at h
  have h1 := h y (List.mem_range.mpr hy)
  rw [Bool.not_eq_true, List.any_eq_false] at h1
  have h2 := h1 x (List.mem_range.mpr hx)
  simp only [hcell, Bool.true_and, Bool.not_eq_true, Bool.or_eq_false_iff,
    decide_eq_false_iff_not] at h2
  omega

theorem dropLoop_occupied (fuel : Nat) (s s' : State) (h : dropLoop fuel s = some s') :
    ∃ y x, y < PIECE_SIZE ∧ x < PIECE_SIZE ∧ shapeAt s.currentPiece.shape y x = true := by
  induction fuel generalizing s with
  | zero => simp [dropLoop] at h
  | succ fuel ih =>
    simp only [dropLoop] at h
    rcases moveCurrentPiece_cases 0 1 s with ⟨hc, hm⟩ | ⟨_, hm⟩
    · exact checkCollision_occupied (translated 0 1 s) hc
    · rw [hm] at h
      exact ih (translated 0 1 s) h

theorem dropLoop_mono (fuel more : Nat) (s s' : State) (h : dropLoop fuel s = some s')
    (hle : fuel ≤ more) : dropLoop more s = some s' := by
  induction fuel generalizing s more with
  | zero => simp [dropLoop] at h
  | succ fuel ih =>
    obtain ⟨m, rfl⟩ : ∃ m, more = m + 1 := ⟨more - 1, by omega⟩
    simp only [dropLoop] at h ⊢
    split
    · rename_i hr
      rw [if_pos hr] at h
      exact ih m _ h (by omega)
    · rename_i hr
      rw [if_neg hr] at h
      exact h

/-- The fuel `hardDrop` gives its loop is enough whenever any fuel is. -/
theorem dropLoop_fuel_enough (fuel : Nat) (s s' : State) (h : dropLoop fuel s = some s') :
    dropLoop (((BOARD_HEIGHT : Int) - s.currentPiece.y).toNat + 1) s = some s' := by
  induction fuel generalizing s with
  | zero => simp [dropLoop] at h
  | succ fuel ih =>
    simp only [dropLoop] at h ⊢
    rcases moveCurrentPiece_cases 0 1 s with ⟨_, hm⟩ | ⟨hc, hm⟩
    · rw [hm] at h ⊢
      exact h
    · rw [hm] at h ⊢
      simp only [if_true] at h ⊢
      obtain ⟨y, x, hy, hx, hcell⟩ := dropLoop_occupied fuel _ s' h
      have hlow := checkCollision_false_below _ hc y x hy hx hcell
      have hty : (translated 0 1 s).currentPiece.y = s.currentPiece.y + 1 := rfl
      have hih := ih _ h
      rw [hty] at hih hlow
      exact dropLoop_mono _ _ _ s' hih (by omega)

/-- In the model `hardDrop` has no result exactly when its loop has none for any fuel. -/
theorem hardDrop_eq_none_iff (rnd : Nat) (s : State) :
    hardDrop rnd s = none ↔ ∀ fuel, dropLoop fuel s = none := by
  unfold hardDrop
  rw [Option.map_eq_none']
  constructor
  · intro h fuel
    cases hf : dropLoop fuel s with
    | none => rfl
    | some t =>
      rw [dropLoop_fuel_enough fuel s t hf] at h
      exact absurd h (by simp)
  · intro h
    exact h _

/-! ## The board keeps its size -/

theorem isBoard_emptyBoard : IsBoard emptyBoard := ⟨by decide, by decide⟩

theorem isBoard_compacted (b : Board) (hb : IsBoard b) :
    IsBoard (List.replicate (b.filter rowFull).length emptyRow ++
      b.filter (fun row => !rowFull row)) := by
  constructor
  · have hsplit : ∀ l : Board,
        (l.filter rowFull).length + (l.filter fun row => !rowFull row).length = l.length := by
      intro l
      induction l with
      | nil => rfl
      | cons r l ih =>
        cases hf : rowFull r <;> simp [List.filter_cons, hf] <;> omega
    rw [List.length_append, List.length_replicate, hsplit, hb.1]
  · intro row hrow
    rcases List.mem_append.mp hrow with h | h
    · rw [List.eq_of_mem_replicate h]
      rfl
    · exact hb.2 row (List.mem_filter.mp h).1

theorem isBoard_lockPiece (rnd : Nat) (s : State) (hb : IsBoard s.board) :
    IsBoard (lockPiece rnd s).board := by
  rw [lockPiece_board rnd s hb]
  exact isBoard_compacted _ (isBoard_writePiece _ _ hb)

theorem moveCurrentPiece_board (dx dy : Int) (s : State) :
    (moveCurrentPiece dx dy s).1.board = s.board := by
  rcases moveCurrentPiece_cases dx dy s with ⟨_, hm⟩ | ⟨_, hm⟩ <;> rw [hm]
  rfl

theorem dropLoop_board (fuel : Nat) (s s' : State) (h : dropLoop fuel s = some s') :
    s'.board = s.board := by
  induction fuel generalizing s with
  | zero => simp [dropLoop] at h
  | succ fuel ih =>
    simp only [dropLoop] at h
    split at h
    · rw [ih _ h, moveCurrentPiece_board]
    · simp only [Option.some.injEq] at h
      rw [← h, moveCurrentPiece_board]

theorem isBoard_step (e : Event) (rnd : Nat) (s s' : State) (hb : IsBoard s.board)
    (hrun : step e rnd s = some s') : IsBoard s'.board := by
  have hmove : ∀ dx dy, IsBoard (moveCurrentPiece dx dy s).1.board := by
    intro dx dy
    rw [moveCurrentPiece_board]
    exact hb
  cases e with
  | timeout =>
    simp only [step, Option.some.injEq] at hrun
    subst hrun
    simp only [timerTimeout, updateGame]
    split
    · split
      · exact isBoard_lockPiece _ _ (hmove 0 1)
      · exact hmove 0 1
    · exact hb
  | key k =>
    simp only [step, keyPressEvent] at hrun
    split at hrun
    · split at hrun <;> simp only [Option.some.injEq] at hrun <;> subst hrun
      · exact isBoard_emptyBoard
      · exact hb
    · cases k <;> simp only [Option.some.injEq] at hrun
      · exact hrun ▸ hmove _ _
      · exact hrun ▸ hmove _ _
      · exact hrun ▸ hmove _ _
      · subst hrun
        simp only [rotatePiece]
        split <;> exact hb
      · unfold hardDrop at hrun
        obtain ⟨t, ht, rfl⟩ := Option.map_eq_some'.mp hrun
        exact isBoard_lockPiece _ _ (dropLoop_board _ s t ht ▸ hb)
      · subst hrun
        simp only [swapPiece]
        split <;> exact hb
      · exact hrun ▸ hb
  | paint =>
    simp only [step, Option.some.injEq] at hrun
    subst hrun
    simp only [paintEvent]
    split <;> exact hb

/-- Every reachable board has `BOARD_HEIGHT` rows of `BOARD_WIDTH` cells, so the
fuel of `clearLines` never runs out in a reachable state. -/
theorem reachable_isBoard (s : State) (h : Reachable s) : IsBoard s.board := by
  induction h with
  | init rnd savedPiece currentCombo => exact isBoard_emptyBoard
  | next e rnd _ hstep ih => exact isBoard_step e rnd _ _ ih hstep

/-! ## Rotation of the active piece -/

/-- C11: with the rotation index `r` in 0..3, `rotatePiece` tests the shape of
rotation `(r + 1) mod 4` at the unchanged origin; if that collides the state is
the one before the call; otherwise the shape becomes
`getRotatedShape type ((r + 1) mod 4)` and the rotation index `(r + 1) mod 4`,
and nothing else changes: origin, type, board, held piece and counters stay. -/
theorem rotatePiece_spec (s : State) (hr0 : 0 ≤ s.currentPiece.rotation)
    (hr3 : s.currentPiece.rotation ≤ 3) :
    rotateCollides s =
      checkCollision
        { s with currentPiece :=
            { s.currentPiece with
              shape := getRotatedShape s.currentPiece.type
                ((s.currentPiece.rotation + 1) % 4) } } ∧
    (rotateCollides s = true → rotatePiece s = s) ∧
    (rotateCollides s = false →
      rotatePiece s =
        { s with currentPiece :=
            { s.currentPiece with
              shape := getRotatedShape s.currentPiece.type
                ((s.currentPiece.rotation + 1) % 4),
              rotation := (s.currentPiece.rotation + 1) % 4 } }) := by
  have hmod : (s.currentPiece.rotation + 1).tmod 4 = (s.currentPiece.rotation + 1) % 4 :=
    Int.tmod_eq_emod (by omega) (by decide)
  refine ⟨?_, ?_, ?_⟩
  · unfold rotateCollides
    rw [hmod]
  · intro h
    unfold rotateCollides at h
    simp only [rotatePiece, h, if_true]
  · intro h
    rw [rotatePiece_of_not_collides s h, hmod]

/-- C11 at the freshly constructed I piece on an empty board: the turn is taken. -/
theorem rotatePiece_spec_witness :
    rotateCollides (sampleState emptyBoard) = false ∧
    (rotatePiece (sampleState emptyBoard)).currentPiece.rotation = 1 ∧
    (rotatePiece (sampleState emptyBoard)).currentPiece.shape = getRotatedShape 0 1 :=
  have h := rotatePiece_spec (sampleState emptyBoard) (by decide) (by decide)
  have hfree : rotateCollides (sampleState emptyBoard) = false := by decide
  ⟨hfree, by rw [h.2.2 hfree]; decide, by rw [h.2.2 hfree]; decide⟩

/-! ## Hold -/

/-- C12: with no piece held and active type `A`, `swapPiece` holds type `A` and
makes the active piece the drawn type `B = rnd mod 7` at origin (3, 0) with
rotation 0; a second `swapPiece` makes the active piece type `A` at origin
(3, 0), rotation 0, shape `getRotatedShape A 0`, holds `B`, and does not depend
on its random draw; with a piece already held, `swapPiece` exchanges held type
and active type, so two such calls restore both types. -/
theorem swapPiece_hold (s : State) (rnd rnd2 : Nat) (h : s.hasSavedPiece = false) :
    (swapPiece rnd s).hasSavedPiece = true ∧
    (swapPiece rnd s).savedPiece.type = s.currentPiece.type ∧
    (swapPiece rnd s).currentPiece =
      { x := 3, y := 0, type := rnd % 7, rotation := 0,
        shape := getRotatedShape (rnd % 7) 0 } ∧
    (swapPiece rnd2 (swapPiece rnd s)).currentPiece =
      { x := 3, y := 0, type := s.currentPiece.type, rotation := 0,
        shape := getRotatedShape s.currentPiece.type 0 } ∧
    (swapPiece rnd2 (swapPiece rnd s)).savedPiece.type = rnd % 7 ∧
    (swapPiece rnd2 (swapPiece rnd s)).hasSavedPiece = true ∧
    (∀ rnd3, swapPiece rnd3 (swapPiece rnd s) = swapPiece rnd2 (swapPiece rnd s)) ∧
    ∀ (t : State) (r1 r2 : Nat), t.hasSavedPiece = true →
      (swapPiece r1 t).currentPiece.type = t.savedPiece.type ∧
      (swapPiece r1 t).savedPiece.type = t.currentPiece.type ∧
      (swapPiece r1 t).hasSavedPiece = true ∧
      (swapPiece r2 (swapPiece r1 t)).currentPiece.type = t.currentPiece.type ∧
      (swapPiece r2 (swapPiece r1 t)).savedPiece.type = t.savedPiece.type := by
  have hheld : ∀ (t : State) (r : Nat), t.hasSavedPiece = true →
      swapPiece r t =
        { t with
          savedPiece :=
            { t.savedPiece with
              type := t.currentPiece.type,
              shape := getRotatedShape t.currentPiece.type 0 },
          currentPiece :=
            { x := 3, y := 0, type := t.savedPiece.type, rotation := 0,
              shape := getRotatedShape t.savedPiece.type 0 } } := by
    intro t r ht
    simp only [swapPiece, ht, Bool.not_true, Bool.false_eq_true, if_false]
    rfl
  have hfirst : swapPiece rnd s =
      { s with
        savedPiece :=
          { x := 0, y := 0, type := s.currentPiece.type, rotation := 0,
            shape := getRotatedShape s.currentPiece.type 0 },
        hasSavedPiece := true,
        currentPiece :=
          { x := 3, y := 0, type := rnd % 7, rotation := 0,
            shape := getRotatedShape (rnd % 7) 0 } } := by
    simp only [swapPiece, h, Bool.not_false, if_true]
    rfl
  have hsaved : (swapPiece rnd s).hasSavedPiece = true := by rw [hfirst]
  refine ⟨hsaved, by rw [hfirst], by rw [hfirst], ?_, ?_, ?_, ?_, ?_⟩
  · rw [hheld _ rnd2 hsaved, hfirst]
  · rw [hheld _ rnd2 hsaved, hfirst]
  · rw [hheld _ rnd2 hsaved]
    exact hsaved
  · intro rnd3
    rw [hheld _ rnd3 hsaved, hheld _ rnd2 hsaved]
  · intro t r1 r2 ht
    have h1 : (swapPiece r1 t).hasSavedPiece = true := by rw [hheld t r1 ht]; exact ht
    refine ⟨by rw [hheld t r1 ht], by rw [hheld t r1 ht], h1, ?_, ?_⟩
    · rw [hheld _ r2 h1, hheld t r1 ht]
    · rw [hheld _ r2 h1, hheld t r1 ht]

/-- C12 at the freshly constructed I piece, with an O piece drawn by the hold. -/
theorem swapPiece_hold_witness :
    (sampleState emptyBoard).hasSavedPiece = false ∧
    (swapPiece 1 (sampleState emptyBoard)).currentPiece.type = 1 ∧
    (swapPiece 1 (sampleState emptyBoard)).savedPiece.type = 0 ∧
    (swapPiece 5 (swapPiece 1 (sampleState emptyBoard))).currentPiece.type = 0 ∧
    (swapPiece 5 (swapPiece 1 (sampleState emptyBoard))).savedPiece.type = 1 :=
  have h := swapPiece_hold (sampleState emptyBoard) 1 5 rfl
  ⟨rfl, by rw [h.2.2.1], h.2.1, by rw [h.2.2.2.1]; rfl, h.2.2.2.2.1⟩

/-! ## Induction over the reachable states -/

theorem dropLoop_invariant (P : State → Prop)
    (hmove : ∀ s dx dy, 0 ≤ dy → P s → P (moveCurrentPiece dx dy s).1)
    (fuel : Nat) (s s' : State) (h : P s) (hrun : dropLoop fuel s = some s') : P s' := by
  induction fuel generalizing s with
  | zero => simp [dropLoop] at hrun
  | succ fuel ih =>
    simp only [dropLoop] at hrun
    split at hrun
    · exact ih _ (hmove s 0 1 (by decide) h) hrun
    · simp only [Option.some.injEq] at hrun
      exact hrun ▸ hmove s 0 1 (by decide) h

theorem step_invariant (P : State → Prop)
    (hinit : ∀ rnd savedPiece currentCombo, P (construct rnd savedPiece currentCombo))
    (hmove : ∀ s dx dy, 0 ≤ dy → P s → P (moveCurrentPiece dx dy s).1)
    (hrot : ∀ s, P s → P (rotatePiece s))
    (hswap : ∀ s rnd, P s → P (swapPiece rnd s))
    (hlock : ∀ s rnd, P s → P (lockPiece rnd s))
    (hpaint : ∀ s, P s → P (paintEvent s))
    (e : Event) (rnd : Nat) (s s' : State) (h : P s) (hrun : step e rnd s = some s') :
    P s' := by
  cases e with
  | timeout =>
    simp only [step, Option.some.injEq] at hrun
    subst hrun
    simp only [timerTimeout, updateGame]
    split
    · split
      · exact hlock _ rnd (hmove s 0 1 (by decide) h)
      · exact hmove s 0 1 (by decide) h
    · exact h
  | key k =>
    simp only [step, keyPressEvent] at hrun
    split at hrun
    · split at hrun <;> simp only [Option.some.injEq] at hrun <;> subst hrun
      · rw [startNewGame_eq_construct]
        exact hinit _ _ _
      · exact h
    · cases k <;> simp only [Option.some.injEq] at hrun
      · exact hrun ▸ hmove s _ _ (by decide) h
      · exact hrun ▸ hmove s _ _ (by decide) h
      · exact hrun ▸ hmove s _ _ (by decide) h
      · exact hrun ▸ hrot s h
      · unfold hardDrop at hrun
        obtain ⟨t, ht, rfl⟩ := Option.map_eq_some'.mp hrun
        exact hlock t rnd (dropLoop_invariant P hmove _ s t h ht)
      · exact hrun ▸ hswap s rnd h
      · exact hrun ▸ h
  | paint =>
    simp only [step, Option.some.injEq] at hrun
    exact hrun ▸ hpaint s h

/-- A property that holds after construction and is kept by a move that does
not go up, a rotation, a hold, a lock and a repaint holds in every reachable
state. -/
theorem reachable_invariant (P : State → Prop)
    (hinit : ∀ rnd savedPiece currentCombo, P (construct rnd savedPiece currentCombo))
    (hmove : ∀ s dx dy, 0 ≤ dy → P s → P (moveCurrentPiece dx dy s).1)
    (hrot : ∀ s, P s → P (rotatePiece s))
    (hswap : ∀ s rnd, P s → P (swapPiece rnd s))
    (hlock : ∀ s rnd, P s → P (lockPiece rnd s))
    (hpaint : ∀ s, P s → P (paintEvent s))
    (s : State) (h : Reachable s) : P s := by
  induction h with
  | init rnd savedPiece currentCombo => exact hinit rnd savedPiece currentCombo
  | next e rnd _ hstep ih =>
    exact step_invariant P hinit hmove hrot hswap hlock hpaint e rnd _ _ ih hstep

theorem rotatePiece_board (s : State) : (rotatePiece s).board = s.board := by
  simp only [rotatePiece]
  split <;> rfl

theorem swapPiece_board (rnd : Nat) (s : State) : (swapPiece rnd s).board = s.board := by
  simp only [swapPiece]
  split <;> rfl

theorem paintEvent_board (s : State) : (paintEvent s).board = s.board := by
  simp only [paintEvent]
  split <;> rfl

/-- The state in which `hardDrop` calls `lockPiece` is reachable. -/
theorem reachable_dropLoop (fuel : Nat) (s t : State) (hs : Reachable s)
    (hplay : s.gameOver = false) (hrun : dropLoop fuel s = some t) : Reachable t := by
  induction fuel generalizing s with
  | zero => simp [dropLoop] at hrun
  | succ fuel ih =>
    have hdown : Reachable (moveCurrentPiece 0 1 s).1 :=
      Reachable.next (Event.key Key.Down) 0 hs (by simp [step, keyPressEvent, hplay])
    have hplay2 : (moveCurrentPiece 0 1 s).1.gameOver = false := by
      rcases moveCurrentPiece_cases 0 1 s with ⟨_, hm⟩ | ⟨_, hm⟩ <;> rw [hm] <;> exact hplay
    simp only [dropLoop] at hrun
    split at hrun
    · exact ih _ hdown hplay2 hrun
    · simp only [Option.some.injEq] at hrun
      exact hrun ▸ hdown

/-! ## At most four rows are cleared -/

theorem noFull_compacted (b : Board) :
    NoFull (List.replicate (b.filter rowFull).length emptyRow ++
      b.filter (fun row => !rowFull row)) := by
  intro row hrow
  rcases List.mem_append.mp hrow with h | h
  · rw [List.eq_of_mem_replicate h]
    exact rowFull_emptyRow
  · simpa using (List.mem_filter.mp h).2

theorem noFull_emptyBoard : NoFull emptyBoard := by decide

theorem reachable_noFull (s : State) (h : Reachable s) : IsBoard s.board ∧ NoFull s.board := by
  refine reachable_invariant (fun s => IsBoard s.board ∧ NoFull s.board) ?_ ?_ ?_ ?_ ?_ ?_ s h
  · intro rnd savedPiece currentCombo
    exact ⟨isBoard_emptyBoard, noFull_emptyBoard⟩
  · intro s dx dy _ hs
    simp only [moveCurrentPiece_board]
    exact hs
  · intro s hs
    simp only [rotatePiece_board]
    exact hs
  · intro s rnd hs
    simp only [swapPiece_board]
    exact hs
  · intro s rnd hs
    refine ⟨isBoard_lockPiece rnd s hs.1, ?_⟩
    rw [lockPiece_board rnd s hs.1]
    exact noFull_compacted _
  · intro s hs
    simp only [paintEvent_board]
    exact hs

theorem foldl_invariant_mem {α β : Type} (P : β → Prop) (f : β → α → β) (l : List α)
    (init : β) (h0 : P init) (hstep : ∀ b, ∀ a ∈ l, P b → P (f b a)) : P (l.foldl f init) := by
  induction l generalizing init with
  | nil => exact h0
  | cons a l ih =>
    exact ih (f init a) (hstep init a (List.mem_cons_self _ _) h0)
      (fun b a' ha' hb => hstep b a' (List.mem_cons_of_mem _ ha') hb)

theorem setCell_getElem?_of_ne (b : Board) (y x v : Int) (i : Nat) (h : 0 ≤ y → y.toNat ≠ i) :
    (setCell b y x v)[i]? = b[i]? := by
  unfold setCell
  split
  · rename_i hyx
    unfold setAt
    exact List.getElem?_set_ne (h hyx.1)
  · rfl

/-- Rows outside the four rows of the piece frame are not written by `lockPiece`. -/
theorem writePiece_getElem?_of_outside (p : Piece) (b : Board) (i : Nat)
    (hi : i < p.y.toNat ∨ p.y.toNat + PIECE_SIZE ≤ i) : (writePiece p b)[i]? = b[i]? := by
  unfold writePiece
  apply foldl_invariant_mem (fun b' => b'[i]? = b[i]?) _ _ _ rfl
  intro b1 y hy h1
  apply foldl_invariant_mem (fun b' => b'[i]? = b[i]?) _ _ _ h1
  intro b2 x _ h2
  have hy4 : y < PIECE_SIZE := List.mem_range.mp hy
  simp only [PIECE_SIZE] at hy4 hi
  split
  · split
    · rw [setCell_getElem?_of_ne _ _ _ _ _ (by omega)]
      exact h2
    · exact h2
  · exact h2

theorem countP_le_of_outside {α : Type} (p : α → Bool) (l : List α) (a n : Nat)
    (h : ∀ i r, (i < a ∨ a + n ≤ i) → l[i]? = some r → p r = false) :
    l.countP p ≤ n := by
  have hsplit : l = l.take a ++ ((l.drop a).take n ++ (l.drop a).drop n) := by
    rw [List.take_append_drop, List.take_append_drop]
  have hlow : (l.take a).countP p = 0 := by
    rw [List.countP_eq_zero]
    intro r hr
    obtain ⟨i, hget⟩ := List.mem_iff_getElem?.mp hr
    rw [List.getElem?_take] at hget
    split at hget
    · rename_i hia
      rw [h i r (Or.inl hia) hget]
      decide
    · exact absurd hget (by simp)
  have hhigh : ((l.drop a).drop n).countP p = 0 := by
    rw [List.countP_eq_zero]
    intro r hr
    obtain ⟨i, hget⟩ := List.mem_iff_getElem?.mp hr
    rw [List.getElem?_drop, List.getElem?_drop] at hget
    rw [h (a + (n + i)) r (Or.inr (by omega)) hget]
    decide
  have hmid : ((l.drop a).take n).countP p ≤ n := by
    refine Nat.le_trans (List.countP_le_length p) ?_
    rw [List.length_take]
    exact Nat.min_le_left _ _
  rw [hsplit, List.countP_append, List.countP_append, hlow, hhigh]
  omega

theorem writePiece_full_rows_le (p : Piece) (b : Board) (hb : NoFull b) :
    ((writePiece p b).filter rowFull).length ≤ PIECE_SIZE := by
  rw [← List.countP_eq_length_filter]
  apply countP_le_of_outside rowFull _ p.y.toNat PIECE_SIZE
  intro i r hi hget
  rw [writePiece_getElem?_of_outside p b i hi] at hget
  exact hb r (List.mem_iff_getElem?.mpr ⟨i, hget⟩)

/-- C13: in every reachable state a `lockPiece` clears at most 4 rows: the
compaction loop run on the board with the piece written in ends with a count
`k ≤ 4`; `clearLines` passes `k` to `updateScore` only when `k > 0`, so the
value passed is in 1..4 and `POINTS[k]` is inside the five-entry table.  The
state in which `hardDrop` locks is itself reachable. -/
theorem lockPiece_clears_at_most_four (s : State) (rnd : Nat) (h : Reachable s) :
    ((writePiece s.currentPiece s.board).filter rowFull).length ≤ 4 ∧
    clearLoop clearFuel ((BOARD_HEIGHT : Int) - 1) (writePiece s.currentPiece s.board) 0 =
      some ((lockPiece rnd s).board,
            ((writePiece s.currentPiece s.board).filter rowFull).length) ∧
    clearLines { s with board := writePiece s.currentPiece s.board } =
      (if ((writePiece s.currentPiece s.board).filter rowFull).length > 0 then
        updateScore (((writePiece s.currentPiece s.board).filter rowFull).length : Int)
          { s with board := (lockPiece rnd s).board }
      else { s with board := (lockPiece rnd s).board }) ∧
    (((writePiece s.currentPiece s.board).filter rowFull).length > 0 →
      (1 : Int) ≤ (((writePiece s.currentPiece s.board).filter rowFull).length : Int) ∧
      (((writePiece s.currentPiece s.board).filter rowFull).length : Int) ≤ 4 ∧
      (((writePiece s.currentPiece s.board).filter rowFull).length : Int).toNat
        < POINTS.length) ∧
    (∀ fuel t, s.gameOver = false → dropLoop fuel s = some t → Reachable t) := by
  obtain ⟨hb, hnf⟩ := reachable_noFull s h
  have hw := isBoard_writePiece s.currentPiece s.board hb
  have hle : ((writePiece s.currentPiece s.board).filter rowFull).length ≤ 4 :=
    writePiece_full_rows_le s.currentPiece s.board hnf
  have hboard := lockPiece_board rnd s hb
  refine ⟨hle, ?_, ?_, ?_, ?_⟩
  · rw [hboard]
    exact clearLoop_board clearFuel _ hw (Nat.le_refl _)
  · rw [hboard]
    exact clearLines_eq { s with board := writePiece s.currentPiece s.board } hw
  · intro hpos
    have hlen : POINTS.length = 5 := rfl
    rw [hlen]
    omega
  · intro fuel t hplay hrun
    exact reachable_dropLoop fuel s t h hplay hrun

theorem run_lineEvents :
    run lineEvents (construct 0 { x := 0, y := 0, type := 0, rotation := 0, shape := [] }
      { text := "", color := ComboColor.invalid, remainingTicks := 0, position := (0, 0) })
    = some lineState := by
  decide

theorem reachable_lineState : Reachable lineState :=
  reachable_run _ _ _ (Reachable.init _ _ _) run_lineEvents

/-- C13 at a reachable state whose lock fills and clears the bottom row. -/
theorem lockPiece_clears_at_most_four_witness :
    Reachable lineState ∧
    ((writePiece lineState.currentPiece lineState.board).filter rowFull).length = 1 ∧
    clearLoop clearFuel ((BOARD_HEIGHT : Int) - 1)
        (writePiece lineState.currentPiece lineState.board) 0 =
      some ((lockPiece 0 lineState).board,
            ((writePiece lineState.currentPiece lineState.board).filter rowFull).length) :=
  ⟨reachable_lineState, by decide,
   (lockPiece_clears_at_most_four lineState 0 reachable_lineState).2.1⟩

/-! ## Accesses stay inside the board -/

theorem checkCollision_false_bounds (s : State) (h : checkCollision s = false) (y x : Nat)
    (hy : y < PIECE_SIZE) (hx : x < PIECE_SIZE) (hcell : shapeAt s.currentPiece.shape y x = true) :
    0 ≤ s.currentPiece.x + (x : Int) ∧ s.currentPiece.x + (x : Int) < (BOARD_WIDTH : Int) ∧
    s.currentPiece.y + (y : Int) < (BOARD_HEIGHT : Int) := by
  unfold checkCollision at h
  rw [List.any_eq_false] at h
  have h1 := h y (List.mem_range.mpr hy)
  rw [Bool.not_eq_true, List.any_eq_false] at h1
  have h2 := h1 x (List.mem_range.mpr hx)
  simp only [hcell, Bool.true_and, Bool.not_eq_true, Bool.or_eq_false_iff,
    decide_eq_false_iff_not] at h2
  omega

theorem pieceInGrid_of_not_collides (s : State) (h : checkCollision s = false)
    (hy : 0 ≤ s.currentPiece.y) : PieceInGrid s.currentPiece := by
  intro y hy4 x hx4 hcell
  obtain ⟨h1, h2, h3⟩ := checkCollision_false_bounds s h y x hy4 hx4 hcell
  exact ⟨h1, h2, by omega, h3⟩

theorem pieceInGrid_initPiece (type : Nat) (s : State) :
    PieceInGrid (initPiece type s).currentPiece := by
  intro y hy x hx _
  simp only [PIECE_SIZE] at hy hx
  have hx3 : (initPiece type s).currentPiece.x = 3 := rfl
  have hy0 : (initPiece type s).currentPiece.y = 0 := rfl
  rw [hx3, hy0]
  simp only [BOARD_WIDTH, BOARD_HEIGHT]
  omega

theorem lockPiece_currentPiece (rnd : Nat) (s : State) :
    (lockPiece rnd s).currentPiece = (initPiece (rnd % PIECES.length) s).currentPiece := by
  simp only [lockPiece, checkGameOver]
  split <;> rfl

theorem swapPiece_currentPiece (rnd : Nat) (s : State) :
    (swapPiece rnd s).currentPiece =
      (initPiece (if s.hasSavedPiece then s.savedPiece.type else rnd % PIECES.length)
        s).currentPiece := by
  simp only [swapPiece]
  cases s.hasSavedPiece <;> rfl

theorem paintEvent_currentPiece (s : State) :
    (paintEvent s).currentPiece = s.currentPiece := by
  simp only [paintEvent]
  split <;> rfl

theorem reachable_pieceInGrid (s : State) (h : Reachable s) :
    0 ≤ s.currentPiece.y ∧ PieceInGrid s.currentPiece := by
  refine reachable_invariant
    (fun s => 0 ≤ s.currentPiece.y ∧ PieceInGrid s.currentPiece) ?_ ?_ ?_ ?_ ?_ ?_ s h
  · intro rnd savedPiece currentCombo
    exact ⟨Int.le_refl 0, pieceInGrid_initPiece _ _⟩
  · intro s dx dy hdy hs
    rcases moveCurrentPiece_cases dx dy s with ⟨_, hm⟩ | ⟨hc, hm⟩ <;> rw [hm]
    · exact hs
    · have hy : 0 ≤ (translated dx dy s).currentPiece.y := Int.add_nonneg hs.1 hdy
      exact ⟨hy, pieceInGrid_of_not_collides _ hc hy⟩
  · intro s hs
    cases hc : rotateCollides s with
    | true =>
      have : rotatePiece s = s := by
        unfold rotateCollides at hc
        simp only [rotatePiece, hc, if_true]
      rw [this]
      exact hs
    | false =>
      rw [rotatePiece_of_not_collides s hc]
      unfold rotateCollides at hc
      have hgrid := pieceInGrid_of_not_collides _ hc hs.1
      exact ⟨hs.1, hgrid⟩
  · intro s rnd _
    rw [swapPiece_currentPiece]
    exact ⟨Int.le_refl 0, pieceInGrid_initPiece _ _⟩
  · intro s rnd _
    rw [lockPiece_currentPiece]
    exact ⟨Int.le_refl 0, pieceInGrid_initPiece _ _⟩
  · intro s hs
    rw [paintEvent_currentPiece]
    exact hs

theorem collisionReads_inBoard (t : State) (i : Int × Int) (hi : i ∈ collisionReads t) :
    InBoard i := by
  unfold collisionReads at hi
  obtain ⟨y, _, hi⟩ := List.mem_flatMap.mp hi
  obtain ⟨x, _, hi⟩ := List.mem_flatMap.mp hi
  split at hi
  · rename_i hc
    simp only [Bool.and_eq_true, Bool.not_eq_true', Bool.or_eq_false_iff,
      decide_eq_false_iff_not, decide_eq_true_eq] at hc
    rw [List.mem_singleton] at hi
    subst hi
    unfold InBoard
    omega
  · exact absurd hi (List.not_mem_nil _)

theorem lockWrites_inBoard (p : Piece) (hp : PieceInGrid p) (i : Int × Int)
    (hi : i ∈ lockWrites p) : InBoard i := by
  unfold lockWrites at hi
  obtain ⟨y, hy, hi⟩ := List.mem_flatMap.mp hi
  obtain ⟨x, hx, hi⟩ := List.mem_flatMap.mp hi
  split at hi
  · rename_i hc
    rw [Bool.and_eq_true] at hc
    rw [List.mem_singleton] at hi
    subst hi
    obtain ⟨h1, h2, h3, h4⟩ := hp y (List.mem_range.mp hy) x (List.mem_range.mp hx) hc.1
    exact ⟨h3, h4, h1, h2⟩
  · exact absurd hi (List.not_mem_nil _)

theorem clearLoopRows_bounds (fuel : Nat) (y : Int) (b : Board) (hy : y < (BOARD_HEIGHT : Int))
    (i : Int) (hi : i ∈ clearLoopRows fuel y b) : 0 ≤ i ∧ i < (BOARD_HEIGHT : Int) := by
  induction fuel generalizing y b with
  | zero => exact absurd hi (List.not_mem_nil _)
  | succ fuel ih =>
    simp only [clearLoopRows] at hi
    split at hi
    · rename_i hy0
      split at hi
      · rcases List.mem_append.mp hi with h | h
        · rcases List.mem_append.mp h with h | h
          · rcases List.mem_cons.mp h with h | h
            · omega
            · obtain ⟨m, hm, hmem⟩ := List.mem_flatMap.mp h
              have hm' : m < y.toNat := List.mem_range.mp (List.mem_reverse.mp hm)
              simp only [List.mem_cons, List.mem_singleton, List.not_mem_nil, or_false] at hmem
              omega
          · rw [List.mem_singleton] at h
            simp only [BOARD_HEIGHT]
            omega
        · exact ih _ _ (by omega) h
      · rcases List.mem_cons.mp hi with h | h
        · omega
        · exact ih _ _ (by omega) h
    · exact absurd hi (List.not_mem_nil _)

/-! ## The cached shapes -/

theorem pieceCached_initPiece (type : Nat) (s : State) (ht : type < PIECES.length) :
    PieceCached (initPiece type s).currentPiece :=
  ⟨ht, Int.le_refl 0, (by decide : (0 : Int) ≤ 3), rfl⟩

theorem lockPiece_saved (rnd : Nat) (s : State) :
    (lockPiece rnd s).savedPiece = s.savedPiece ∧
    (lockPiece rnd s).hasSavedPiece = s.hasSavedPiece := by
  have hclear : (clearLines { s with board := writePiece s.currentPiece s.board }).savedPiece
        = s.savedPiece ∧
      (clearLines { s with board := writePiece s.currentPiece s.board }).hasSavedPiece
        = s.hasSavedPiece := by
    unfold clearLines
    split
    · split <;> exact ⟨rfl, rfl⟩
    · exact ⟨rfl, rfl⟩
  simp only [lockPiece, checkGameOver]
  split <;> exact hclear

theorem shapesCached_swapPiece (rnd : Nat) (s : State) (h : ShapesCached s) :
    ShapesCached (swapPiece rnd s) := by
  have hrnd : rnd % PIECES.length < PIECES.length := Nat.mod_lt _ (by decide)
  cases hs : s.hasSavedPiece with
  | false =>
    simp only [swapPiece, hs, Bool.not_false, if_true]
    exact ⟨pieceCached_initPiece _ _ hrnd, fun _ => ⟨h.1.1, rfl⟩⟩
  | true =>
    simp only [swapPiece, hs, Bool.not_true, Bool.false_eq_true, if_false]
    exact ⟨⟨(h.2 hs).1, Int.le_refl 0, (by decide : (0 : Int) ≤ 3), rfl⟩,
      fun _ => ⟨h.1.1, rfl⟩⟩

theorem shapesCached_rotatePiece (s : State) (h : ShapesCached s) :
    ShapesCached (rotatePiece s) := by
  cases hc : rotateCollides s with
  | true =>
    have : rotatePiece s = s := by
      unfold rotateCollides at hc
      simp only [rotatePiece, hc, if_true]
    rw [this]
    exact h
  | false =>
    rw [rotatePiece_of_not_collides s hc]
    obtain ⟨⟨ht, hr0, hr3, _⟩, hsaved⟩ := h
    have hmod : (s.currentPiece.rotation + 1).tmod 4 = (s.currentPiece.rotation + 1) % 4 :=
      Int.tmod_eq_emod (by omega) (by decide)
    refine ⟨⟨ht, ?_, ?_, rfl⟩, hsaved⟩
    · show 0 ≤ (s.currentPiece.rotation + 1).tmod 4
      rw [hmod]
      omega
    · show (s.currentPiece.rotation + 1).tmod 4 ≤ 3
      rw [hmod]
      omega

theorem reachable_shapesCached (s : State) (h : Reachable s) : ShapesCached s := by
  have hrnd : ∀ rnd, rnd % PIECES.length < PIECES.length := fun rnd => Nat.mod_lt _ (by decide)
  refine reachable_invariant ShapesCached ?_ ?_ ?_ ?_ ?_ ?_ s h
  · intro rnd savedPiece currentCombo
    exact ⟨pieceCached_initPiece _ _ (hrnd rnd), fun hs => Bool.noConfusion (hs : false = true)⟩
  · intro s dx dy _ hs
    rcases moveCurrentPiece_cases dx dy s with ⟨_, hm⟩ | ⟨_, hm⟩ <;> rw [hm] <;> exact hs
  · exact shapesCached_rotatePiece
  · intro s rnd hs
    exact shapesCached_swapPiece rnd s hs
  · intro s rnd hs
    refine ⟨?_, ?_⟩
    · rw [lockPiece_currentPiece]
      exact pieceCached_initPiece _ _ (hrnd rnd)
    · rw [(lockPiece_saved rnd s).1, (lockPiece_saved rnd s).2]
      exact hs.2
  · intro s hs
    simp only [paintEvent]
    split <;> exact hs

/-- C15: in every reachable state the cached shape of the active piece is
`getRotatedShape type rotation` with `type` in 0..6 and `rotation` in 0..3, and
whenever a piece is held its cached shape is `getRotatedShape heldType 0`. -/
theorem reachable_shapes_cached (s : State) (h : Reachable s) :
    s.currentPiece.shape = getRotatedShape s.currentPiece.type s.currentPiece.rotation ∧
    s.currentPiece.type < 7 ∧
    0 ≤ s.currentPiece.rotation ∧ s.currentPiece.rotation ≤ 3 ∧
    (s.hasSavedPiece = true →
      s.savedPiece.shape = getRotatedShape s.savedPiece.type 0) := by
  obtain ⟨⟨ht, hr0, hr3, hshape⟩, hsaved⟩ := reachable_shapesCached s h
  exact ⟨hshape, ht, hr0, hr3, fun hs => (hsaved hs).2⟩

theorem run_holdEvents :
    run holdEvents (construct 0 { x := 0, y := 0, type := 0, rotation := 0, shape := [] }
      { text := "", color := ComboColor.invalid, remainingTicks := 0, position := (0, 0) })
    = some heldState := by
  decide

theorem reachable_heldState : Reachable heldState :=
  reachable_run _ _ _ (Reachable.init _ _ _) run_holdEvents

/-- C15 at the reachable state after five drops and a hold: an I piece is
active and an O piece is held. -/
theorem reachable_shapes_cached_witness :
    Reachable heldState ∧ heldState.hasSavedPiece = true ∧
    heldState.currentPiece.shape
      = getRotatedShape heldState.currentPiece.type heldState.currentPiece.rotation ∧
    heldState.currentPiece.type < 7 ∧
    0 ≤ heldState.currentPiece.rotation ∧ heldState.currentPiece.rotation ≤ 3 ∧
    (heldState.hasSavedPiece = true →
      heldState.savedPiece.shape = getRotatedShape heldState.savedPiece.type 0) :=
  ⟨reachable_heldState, by decide, reachable_shapes_cached heldState reachable_heldState⟩

/-- C14: in every reachable state every occupied cell of the active piece has
board-x in [0, 10) and board-y in [0, 20), the board is 20x10 and the shape is
4x4; so every write of a `lockPiece` in that state, and in the state a
`hardDrop` from it locks, is inside the board; every board read
`checkCollision` can reach, in any state, is inside the board; and every row
index the loop of `clearLines` uses is in 0..19. -/
theorem board_accesses_in_range (s : State) (h : Reachable s) :
    PieceInGrid s.currentPiece ∧ IsBoard s.board ∧ IsShape s.currentPiece.shape ∧
    (∀ i ∈ lockWrites s.currentPiece, InBoard i) ∧
    (∀ fuel t, s.gameOver = false → dropLoop fuel s = some t →
      IsBoard t.board ∧ ∀ i ∈ lockWrites t.currentPiece, InBoard i) ∧
    (∀ t : State, ∀ i ∈ collisionReads t, InBoard i) ∧
    (∀ fuel b, ∀ i ∈ clearLoopRows fuel ((BOARD_HEIGHT : Int) - 1) b,
      0 ≤ i ∧ i < (BOARD_HEIGHT : Int)) := by
  have hgrid := (reachable_pieceInGrid s h).2
  have hshape : IsShape s.currentPiece.shape := by
    rw [(reachable_shapesCached s h).1.2.2.2]
    exact isShape_getRotatedShape _ _
  refine ⟨hgrid, reachable_isBoard s h, hshape, ?_, ?_, ?_, ?_⟩
  · exact fun i hi => lockWrites_inBoard _ hgrid i hi
  · intro fuel t hplay hrun
    have ht := reachable_dropLoop fuel s t h hplay hrun
    exact ⟨reachable_isBoard t ht,
      fun i hi => lockWrites_inBoard _ (reachable_pieceInGrid t ht).2 i hi⟩
  · exact fun t i hi => collisionReads_inBoard t i hi
  · intro fuel b i hi
    exact clearLoopRows_bounds fuel _ b (by omega) i hi

/-- C14 at the reachable state with an O piece resting on the floor in columns
8..9: the four cells `lockPiece` writes. -/
theorem board_accesses_in_range_witness :
    Reachable lineState ∧
    lockWrites lineState.currentPiece = [(18, 8), (18, 9), (19, 8), (19, 9)] ∧
    (∀ i ∈ lockWrites lineState.currentPiece, InBoard i) :=
  ⟨reachable_lineState, by decide,
   (board_accesses_in_range lineState reachable_lineState).2.2.2.1⟩

/-! ## Hold spawns without the game-over test -/

/-- C19 fails on the code: after five upright I pieces have filled column 6 and
an O piece has spawned free, a hold draws an I piece; `swapPiece` places it at
the spawn origin without `checkGameOver`, so the state is reachable and
playing while the active piece lies on the locked cell in row 1, column 6;
the `lockPiece` that follows writes that cell although it was not empty. -/
theorem hold_spawns_colliding_piece :
    Reachable heldState ∧ heldState.gameOver = false ∧ checkCollision heldState = true ∧
    (1, 6) ∈ lockWrites heldState.currentPiece ∧ cellAt heldState.board 1 6 ≠ 0 ∧
    ((lockWrites heldState.currentPiece).filter
      fun i => decide (cellAt heldState.board i.1.toNat i.2.toNat = 0)).length = 3 :=
  ⟨reachable_heldState, by decide, by decide, by decide, by decide, by decide⟩

/-! ## The counters never fall -/

theorem scoreMono_refl (s : State) : ScoreMono s s :=
  ⟨Int.le_refl _, Int.le_refl _, Int.le_refl _⟩

theorem pointsAt_nonneg (lines : Int) : 0 ≤ pointsAt lines := by
  have htable : ∀ n : Nat, 0 ≤ POINTS.getD n 0 := by
    intro n
    rcases n with _ | _ | _ | _ | _ | n <;> simp [POINTS]
  unfold pointsAt
  split
  · exact htable _
  · exact Int.le_refl 0

theorem scoreMono_updateScore (lines : Int) (s : State) (hl : 0 ≤ lines) (h : CoreInv s) :
    ScoreMono s (updateScore lines s) := by
  obtain ⟨hn, hlevel, _⟩ := h
  have hlevel' : s.level = 1 + s.linesCleared / 10 := by
    rw [hlevel, Int.tdiv_eq_ediv hn (by decide)]
  refine ⟨?_, ?_, ?_⟩
  · show s.score ≤ s.score + pointsAt lines * s.level
    have := Int.mul_nonneg (pointsAt_nonneg lines) (show 0 ≤ s.level by omega)
    omega
  · show s.level ≤ 1 + (s.linesCleared + lines).tdiv 10
    rw [Int.tdiv_eq_ediv (by omega) (by decide)]
    omega
  · show s.linesCleared ≤ s.linesCleared + lines
    omega

theorem scoreMono_clearLines (s : State) (h : CoreInv s) : ScoreMono s (clearLines s) := by
  unfold clearLines
  split
  · split
    · exact scoreMono_updateScore _ { s with board := _ } (Int.natCast_nonneg _) h
    · exact scoreMono_refl s
  · exact scoreMono_refl s

theorem scoreMono_lockPiece (rnd : Nat) (s : State) (h : CoreInv s) :
    ScoreMono s (lockPiece rnd s) := by
  have hclear := scoreMono_clearLines { s with board := writePiece s.currentPiece s.board } h
  simp only [lockPiece, checkGameOver]
  split <;> exact hclear

theorem scoreMono_moveCurrentPiece (dx dy : Int) (s : State) :
    ScoreMono s (moveCurrentPiece dx dy s).1 := by
  rcases moveCurrentPiece_cases dx dy s with ⟨_, hm⟩ | ⟨_, hm⟩ <;> rw [hm] <;>
    exact scoreMono_refl s

theorem scoreMono_updateGame (rnd : Nat) (s : State) (h : CoreInv s) :
    ScoreMono s (updateGame rnd s) := by
  simp only [updateGame]
  rcases moveCurrentPiece_cases 0 1 s with ⟨_, hm⟩ | ⟨_, hm⟩ <;> rw [hm]
  · exact scoreMono_lockPiece rnd s h
  · exact scoreMono_refl s

theorem scoreMono_dropLoop (fuel : Nat) (s t : State) (hrun : dropLoop fuel s = some t) :
    ScoreMono s t ∧ (CoreInv s → CoreInv t) := by
  induction fuel generalizing s with
  | zero => simp [dropLoop] at hrun
  | succ fuel ih =>
    simp only [dropLoop] at hrun
    rcases moveCurrentPiece_cases 0 1 s with ⟨_, hm⟩ | ⟨_, hm⟩ <;> rw [hm] at hrun
    · simp only [Bool.false_eq_true, if_false, Option.some.injEq] at hrun
      subst hrun
      exact ⟨scoreMono_refl s, id⟩
    · simp only [if_true] at hrun
      obtain ⟨hmono, hinv⟩ := ih (translated 0 1 s) hrun
      exact ⟨hmono, hinv⟩

theorem scoreMono_step (e : Event) (rnd : Nat) (s s' : State) (h : CoreInv s)
    (hrun : step e rnd s = some s')
    (hnew : ¬ (s.gameOver = true ∧ e = Event.key Key.Space)) : ScoreMono s s' := by
  cases e with
  | timeout =>
    simp only [step, Option.some.injEq] at hrun
    subst hrun
    unfold timerTimeout
    split
    · exact scoreMono_updateGame rnd s h
    · exact scoreMono_refl s
  | key k =>
    simp only [step, keyPressEvent] at hrun
    split at hrun
    · rename_i hover
      split at hrun
      · rename_i hk
        exact absurd ⟨hover, by rw [hk]⟩ hnew
      · simp only [Option.some.injEq] at hrun
        exact hrun ▸ scoreMono_refl s
    · cases k <;> simp only [Option.some.injEq] at hrun
      · exact hrun ▸ scoreMono_moveCurrentPiece _ _ s
      · exact hrun ▸ scoreMono_moveCurrentPiece _ _ s
      · exact hrun ▸ scoreMono_moveCurrentPiece _ _ s
      · subst hrun
        simp only [rotatePiece]
        split <;> exact scoreMono_refl s
      · unfold hardDrop at hrun
        obtain ⟨t, ht, rfl⟩ := Option.map_eq_some'.mp hrun
        obtain ⟨hmono, hinv⟩ := scoreMono_dropLoop _ s t ht
        obtain ⟨h1, h2, h3⟩ := scoreMono_lockPiece rnd t (hinv h)
        exact ⟨Int.le_trans hmono.1 h1, Int.le_trans hmono.2.1 h2, Int.le_trans hmono.2.2 h3⟩
      · subst hrun
        simp only [swapPiece]
        split <;> exact scoreMono_refl s
      · exact hrun ▸ scoreMono_refl s
  | paint =>
    simp only [step, Option.some.injEq] at hrun
    subst hrun
    simp only [paintEvent]
    split <;> exact scoreMono_refl s

theorem reachable_score_nonneg (s : State) (h : Reachable s) : 0 ≤ s.score := by
  have hboth : CoreInv s ∧ 0 ≤ s.score := by
    refine reachable_invariant (fun s => CoreInv s ∧ 0 ≤ s.score) ?_ ?_ ?_ ?_ ?_ ?_ s h
    · intro rnd savedPiece currentCombo
      exact ⟨coreInv_construct _ _ _, Int.le_refl 0⟩
    · intro s dx dy _ hs
      exact ⟨coreInv_moveCurrentPiece dx dy s hs.1,
        Int.le_trans hs.2 (scoreMono_moveCurrentPiece dx dy s).1⟩
    · intro s hs
      refine ⟨coreInv_rotatePiece s hs.1, ?_⟩
      simp only [rotatePiece]
      split <;> exact hs.2
    · intro s rnd hs
      refine ⟨coreInv_swapPiece rnd s hs.1, ?_⟩
      simp only [swapPiece]
      split <;> exact hs.2
    · intro s rnd hs
      exact ⟨coreInv_lockPiece rnd s hs.1, Int.le_trans hs.2 (scoreMono_lockPiece rnd s hs.1).1⟩
    · intro s hs
      refine ⟨coreInv_paintEvent s hs.1, ?_⟩
      simp only [paintEvent]
      split <;> exact hs.2
  exact hboth.2

/-- C16: in every reachable state `score ≥ 0`, `level ≥ 1` and `lines ≥ 0`;
every delivered event other than the Space key in a game-over state (the one
that runs `startNewGame`) leaves each of score, level and lines at least as
large as before, and so do `lockPiece` and `updateGame` on their own;
`startNewGame` sets them to 0, 1 and 0.  Integers are unbounded. -/
theorem counters_never_fall (s : State) (h : Reachable s) :
    0 ≤ s.score ∧ 1 ≤ s.level ∧ 0 ≤ s.linesCleared ∧
    (∀ e rnd s', step e rnd s = some s' →
      ¬ (s.gameOver = true ∧ e = Event.key Key.Space) → ScoreMono s s') ∧
    (∀ rnd, ScoreMono s (lockPiece rnd s)) ∧
    (∀ rnd, ScoreMono s (updateGame rnd s)) ∧
    (∀ rnd, (startNewGame rnd s).score = 0 ∧ (startNewGame rnd s).level = 1 ∧
      (startNewGame rnd s).linesCleared = 0) := by
  have hinv := reachable_coreInv s h
  have hlevel : 1 ≤ s.level := by
    obtain ⟨hn, hl, _⟩ := hinv
    rw [hl, Int.tdiv_eq_ediv hn (by decide)]
    omega
  exact ⟨reachable_score_nonneg s h, hlevel, hinv.1,
    fun e rnd s' hrun hnew => scoreMono_step e rnd s s' hinv hrun hnew,
    fun rnd => scoreMono_lockPiece rnd s hinv,
    fun rnd => scoreMono_updateGame rnd s hinv,
    fun _ => ⟨rfl, rfl, rfl⟩⟩

/-- C16 at the reachable state whose lock clears the bottom row: the lock
raises the score from 0 to 40 and the lines from 0 to 1. -/
theorem counters_never_fall_witness :
    Reachable lineState ∧ ScoreMono lineState (lockPiece 0 lineState) ∧
    lineState.score = 0 ∧ (lockPiece 0 lineState).score = 40 ∧
    (lockPiece 0 lineState).linesCleared = 1 :=
  ⟨reachable_lineState, (counters_never_fall lineState reachable_lineState).2.2.2.2.1 0,
   by decide, by decide, by decide⟩

/-! ## The tick interval -/

theorem interval_clearLines (s : State) (h : s.timer.interval = tickInterval s.level) :
    (clearLines s).timer.interval = tickInterval (clearLines s).level := by
  unfold clearLines
  split
  · split
    · rfl
    · exact h
  · exact h

theorem reachable_interval (s : State) (h : Reachable s) :
    s.timer.interval = tickInterval s.level := by
  refine reachable_invariant (fun s => s.timer.interval = tickInterval s.level)
    ?_ ?_ ?_ ?_ ?_ ?_ s h
  · intro rnd savedPiece currentCombo
    show (500 : Int) = tickInterval 1
    decide
  · intro s dx dy _ hs
    rcases moveCurrentPiece_cases dx dy s with ⟨_, hm⟩ | ⟨_, hm⟩ <;> rw [hm] <;> exact hs
  · intro s hs
    simp only [rotatePiece]
    split <;> exact hs
  · intro s rnd hs
    simp only [swapPiece]
    split <;> exact hs
  · intro s rnd hs
    have hclear := interval_clearLines { s with board := writePiece s.currentPiece s.board } hs
    simp only [lockPiece, checkGameOver]
    split <;> exact hclear
  · intro s hs
    simp only [paintEvent]
    split <;> exact hs

/-- C18: in every reachable state the interval set on the timer is
`max(100, 500 − (level − 1) × 20)` for the current level; as a function of
`level ≥ 1` that value lies in [100, 500], does not increase with the level,
is 500 at level 1 and is 100 from level 21 on. -/
theorem reachable_tick_interval (s : State) (h : Reachable s) :
    s.timer.interval = max 100 (500 - (s.level - 1) * 20) ∧
    (∀ level : Int, 1 ≤ level → 100 ≤ tickInterval level ∧ tickInterval level ≤ 500) ∧
    (∀ l1 l2 : Int, 1 ≤ l1 → l1 ≤ l2 → tickInterval l2 ≤ tickInterval l1) ∧
    tickInterval 1 = 500 ∧
    (∀ level : Int, 21 ≤ level → tickInterval level = 100) := by
  refine ⟨reachable_interval s h, ?_, ?_, by decide, ?_⟩
  · intro level hl
    unfold tickInterval
    omega
  · intro l1 l2 _ hle
    unfold tickInterval
    omega
  · intro level hl
    unfold tickInterval
    omega

/-- C18 at the reachable state with an O piece resting on the floor, level 1. -/
theorem reachable_tick_interval_witness :
    Reachable lineState ∧ lineState.timer.interval = 500 ∧
    lineState.timer.interval = max 100 (500 - (lineState.level - 1) * 20) :=
  ⟨reachable_lineState, by decide, (reachable_tick_interval lineState reachable_lineState).1⟩

/-! ## Hard drop -/

theorem dropped_zero (s : State) : dropped 0 s = s := by
  obtain ⟨timer, board, ⟨x, y, type, rotation, shape⟩, saved, has, score, level, lines, over,
    combo⟩ := s
  simp [dropped]

theorem dropped_dropped (a b : Nat) (s : State) : dropped a (dropped b s) = dropped (b + a) s := by
  obtain ⟨timer, board, ⟨x, y, type, rotation, shape⟩, saved, has, score, level, lines, over,
    combo⟩ := s
  simp only [dropped, Nat.cast_add, Int.add_assoc]

theorem translated_down (s : State) : translated 0 1 s = dropped 1 s := by
  obtain ⟨timer, board, ⟨x, y, type, rotation, shape⟩, saved, has, score, level, lines, over,
    combo⟩ := s
  simp [translated, dropped]

theorem moveCurrentPiece_down (s : State) :
    moveCurrentPiece 0 1 s =
      if checkCollision (dropped 1 s) then (s, false) else (dropped 1 s, true) := by
  rcases moveCurrentPiece_cases 0 1 s with ⟨hc, hm⟩ | ⟨hc, hm⟩
  · rw [translated_down] at hc
    rw [hm, hc]
    rfl
  · rw [translated_down] at hc hm
    rw [hm, hc]
    rfl

theorem updateGame_down (rnd : Nat) (s : State) :
    updateGame rnd s = if checkCollision (dropped 1 s) then lockPiece rnd s else dropped 1 s := by
  simp only [updateGame, moveCurrentPiece_down]
  cases hc : checkCollision (dropped 1 s) <;> simp

theorem dropLoop_of_collisions (k : Nat) (s : State)
    (hfree : ∀ j, j < k → checkCollision (dropped (j + 1) s) = false)
    (hhit : checkCollision (dropped (k + 1) s) = true) (fuel : Nat) (hfuel : k < fuel) :
    dropLoop fuel s = some (dropped k s) := by
  induction k generalizing s fuel with
  | zero =>
    obtain ⟨f, rfl⟩ : ∃ f, fuel = f + 1 := ⟨fuel - 1, by omega⟩
    simp only [dropLoop, moveCurrentPiece_down, hhit, if_true, Bool.false_eq_true, if_false,
      dropped_zero]
  | succ k ih =>
    obtain ⟨f, rfl⟩ : ∃ f, fuel = f + 1 := ⟨fuel - 1, by omega⟩
    have h1 : checkCollision (dropped 1 s) = false := hfree 0 (by omega)
    simp only [dropLoop, moveCurrentPiece_down, h1, Bool.false_eq_true, if_false, if_true]
    have hrec := ih (dropped 1 s)
      (fun j hj => by rw [dropped_dropped, Nat.add_comm 1]; exact hfree (j + 1) (by omega))
      (by rw [dropped_dropped, Nat.add_comm 1]; exact hhit) f (by omega)
    rw [hrec, dropped_dropped, Nat.add_comm 1]

theorem ticks_of_collisions (rnd k : Nat) (s : State)
    (hfree : ∀ j, j < k → checkCollision (dropped (j + 1) s) = false) :
    ticks rnd k s = dropped k s := by
  induction k generalizing s with
  | zero => simp only [ticks, dropped_zero]
  | succ k ih =>
    have h1 : checkCollision (dropped 1 s) = false := hfree 0 (by omega)
    simp only [ticks, updateGame_down, h1, Bool.false_eq_true, if_false]
    rw [ih (dropped 1 s)
      (fun j hj => by rw [dropped_dropped, Nat.add_comm 1]; exact hfree (j + 1) (by omega)),
      dropped_dropped, Nat.add_comm 1]

theorem ticks_succ (rnd n : Nat) (s : State) :
    ticks rnd (n + 1) s = updateGame rnd (ticks rnd n s) := by
  induction n generalizing s with
  | zero => rfl
  | succ n ih =>
    show ticks rnd (n + 1) (updateGame rnd s) = updateGame rnd (ticks rnd n (updateGame rnd s))
    exact ih (updateGame rnd s)

theorem checkCollision_of_low (s : State) (y x : Nat) (hy : y < PIECE_SIZE) (hx : x < PIECE_SIZE)
    (hcell : shapeAt s.currentPiece.shape y x = true)
    (hlow : (BOARD_HEIGHT : Int) ≤ s.currentPiece.y + (y : Int)) : checkCollision s = true := by
  cases hc : checkCollision s with
  | true => rfl
  | false =>
    have := checkCollision_false_below s hc y x hy hx hcell
    omega

/-- C17: when the active shape has an occupied cell, `hardDrop` ends: there is
a least `k ≥ 0` such that the piece `k + 1` rows further down collides; the
loop makes exactly `k` successful moves (any fuel above `k` gives the piece `k`
rows down), `lockPiece` then runs on the piece at origin `(x, y + k)`; and the
result is the state after `k + 1` runs of `updateGame` with the same draw, of
which the first `k` only move the piece and the last one locks. -/
theorem hardDrop_spec (s : State) (rnd : Nat)
    (hocc : ∃ y x, y < PIECE_SIZE ∧ x < PIECE_SIZE ∧ shapeAt s.currentPiece.shape y x = true) :
    ∃ k : Nat,
      (∀ j, j < k → checkCollision (dropped (j + 1) s) = false) ∧
      checkCollision (dropped (k + 1) s) = true ∧
      (∀ fuel, k < fuel → dropLoop fuel s = some (dropped k s)) ∧
      (dropped k s).currentPiece.x = s.currentPiece.x ∧
      (dropped k s).currentPiece.y = s.currentPiece.y + (k : Int) ∧
      hardDrop rnd s = some (lockPiece rnd (dropped k s)) ∧
      (∀ j, j ≤ k → ticks rnd j s = dropped j s) ∧
      ticks rnd (k + 1) s = lockPiece rnd (dropped k s) := by
  obtain ⟨y, x, hy, hx, hcell⟩ := hocc
  have hex : ∃ j, checkCollision (dropped (j + 1) s) = true := by
    refine ⟨((BOARD_HEIGHT : Int) - s.currentPiece.y).toNat, ?_⟩
    refine checkCollision_of_low (dropped _ s) y x hy hx hcell ?_
    show (BOARD_HEIGHT : Int) ≤ s.currentPiece.y
      + ((((BOARD_HEIGHT : Int) - s.currentPiece.y).toNat + 1 : Nat) : Int) + (y : Int)
    omega
  obtain ⟨k, hhit, hleast⟩ : ∃ k, checkCollision (dropped (k + 1) s) = true ∧
      ∀ j, j < k → checkCollision (dropped (j + 1) s) = false := by
    refine ⟨Nat.find hex, Nat.find_spec hex, fun j hj => ?_⟩
    have := Nat.find_min hex hj
    simpa using this
  have hloop := dropLoop_of_collisions k s hleast hhit
  have hticks : ∀ j, j ≤ k → ticks rnd j s = dropped j s := fun j hj =>
    ticks_of_collisions rnd j s (fun i hi => hleast i (by omega))
  refine ⟨k, hleast, hhit, hloop, rfl, rfl, ?_, hticks, ?_⟩
  · unfold hardDrop
    rw [dropLoop_fuel_enough (k + 1) s _ (hloop (k + 1) (by omega))]
    rfl
  · rw [ticks_succ, hticks k (Nat.le_refl k), updateGame_down, dropped_dropped, hhit]
    rfl

/-- C17 at the freshly constructed I piece on an empty board: 18 moves, then the lock. -/
theorem hardDrop_spec_witness :
    hardDrop 0 (sampleState emptyBoard) = some (lockPiece 0 (dropped 18 (sampleState emptyBoard))) ∧
    ∃ k : Nat,
      (∀ j, j < k → checkCollision (dropped (j + 1) (sampleState emptyBoard)) = false) ∧
      checkCollision (dropped (k + 1) (sampleState emptyBoard)) = true ∧
      (∀ fuel, k < fuel → dropLoop fuel (sampleState emptyBoard)
        = some (dropped k (sampleState emptyBoard))) ∧
      (dropped k (sampleState emptyBoard)).currentPiece.x
        = (sampleState emptyBoard).currentPiece.x ∧
      (dropped k (sampleState emptyBoard)).currentPiece.y
        = (sampleState emptyBoard).currentPiece.y + (k : Int) ∧
      hardDrop 0 (sampleState emptyBoard)
        = some (lockPiece 0 (dropped k (sampleState emptyBoard))) ∧
      (∀ j, j ≤ k → ticks 0 j (sampleState emptyBoard) = dropped j (sampleState emptyBoard)) ∧
      ticks 0 (k + 1) (sampleState emptyBoard)
        = lockPiece 0 (dropped k (sampleState emptyBoard)) :=
  ⟨by decide,
   hardDrop_spec (sampleState emptyBoard) 0 ⟨1, 0, by decide, by decide, by decide⟩⟩

/-! ## Four cells per piece -/

theorem cellCount_rotateStep (m : Shape) (h : IsShape m) :
    cellCount (rotateStep m) = cellCount m := by
  obtain ⟨a0, a1, a2, a3, b0, b1, b2, b3, c0, c1, c2, c3, d0, d1, d2, d3, rfl⟩ := shape_cells m h
  rw [rotateStep_cells]
  simp only [cellCount, List.map_cons, List.map_nil, List.sum_cons, List.sum_nil,
    List.countP_cons, List.countP_nil]
  omega

theorem cellCount_rotateLoop (n : Nat) (m : Shape) (h : IsShape m) :
    cellCount (rotateLoop n m) = cellCount m := by
  induction n with
  | zero => rfl
  | succ n ih =>
    rw [rotateLoop_succ, cellCount_rotateStep _ (isShape_rotateLoop n m h), ih]

/-- C20: for each of the seven piece types and every rotation count `r` (so
for every `r ≥ 0`), `getRotatedShape type r` has exactly 4 occupied cells; for `r = 0` they all lie
in rows 0..1 of the 4x4 frame, so the piece `initPiece` spawns at origin (3, 0)
occupies only board rows 0..1 and board columns 3..6. -/
theorem getRotatedShape_four_cells (type : Nat) (r : Int) (ht : type < PIECES.length) :
    cellCount (getRotatedShape type r) = 4 ∧
    (∀ y x, y < PIECE_SIZE → x < PIECE_SIZE →
      shapeAt (getRotatedShape type 0) y x = true → y ≤ 1) ∧
    ∀ (s : State) (y x : Nat), y < PIECE_SIZE → x < PIECE_SIZE →
      shapeAt (initPiece type s).currentPiece.shape y x = true →
        (initPiece type s).currentPiece.x = 3 ∧ (initPiece type s).currentPiece.y = 0 ∧
        0 ≤ (initPiece type s).currentPiece.y + (y : Int) ∧
        (initPiece type s).currentPiece.y + (y : Int) ≤ 1 ∧
        3 ≤ (initPiece type s).currentPiece.x + (x : Int) ∧
        (initPiece type s).currentPiece.x + (x : Int) ≤ 6 := by
  have ht7 : type < 7 := ht
  have hrows : ∀ y x, y < PIECE_SIZE → x < PIECE_SIZE →
      shapeAt (getRotatedShape type 0) y x = true → y ≤ 1 := by
    intro y x hy hx
    simp only [PIECE_SIZE] at hy hx
    interval_cases type <;> interval_cases y <;> interval_cases x <;> decide
  refine ⟨?_, hrows, ?_⟩
  · unfold getRotatedShape
    rw [cellCount_rotateLoop _ _ (isShape_toMatrix _)]
    interval_cases type <;> decide
  · intro s y x hy hx hcell
    have hx3 : (initPiece type s).currentPiece.x = 3 := rfl
    have hy0 : (initPiece type s).currentPiece.y = 0 := rfl
    have hy1 : y ≤ 1 := hrows y x hy hx hcell
    simp only [PIECE_SIZE] at hx
    rw [hx3, hy0]
    omega

/-- C20 at the T piece after three quarter turns, and at its spawn. -/
theorem getRotatedShape_four_cells_witness :
    cellCount (getRotatedShape 2 3) = 4 ∧
    (∀ y x, y < PIECE_SIZE → x < PIECE_SIZE →
      shapeAt (getRotatedShape 2 0) y x = true → y ≤ 1) :=
  have h := getRotatedShape_four_cells 2 3 (by decide)
  ⟨h.1, h.2.1⟩

/-! ## Scoring in 32-bit arithmetic -/

theorem wrapInt_of_fits (v : Int) (h : FitsInt v) : wrapInt v = v := by
  unfold FitsInt INT_MIN INT_MAX at h
  unfold wrapInt
  omega

theorem fitsInt_wrapInt (v : Int) : FitsInt (wrapInt v) := by
  unfold FitsInt INT_MIN INT_MAX wrapInt
  omega

theorem pointsAt_eq_specScoreTable (lines : Int) (h0 : 0 ≤ lines) (h4 : lines ≤ 4) :
    pointsAt lines = specScoreTable lines := by
  interval_cases lines <;> simp [pointsAt, POINTS, specScoreTable]

/-- As long as every value fits, the 32-bit reading of `updateScore` is the
unbounded one: that is so for 0..4 lines while the lines cleared are between 0
and 10^9 and the points and the new score fit. -/
theorem updateScore32_eq_updateScore (lines : Int) (s : State) (h0 : 0 ≤ lines)
    (h4 : lines ≤ 4) (hn0 : 0 ≤ s.linesCleared) (hn1 : s.linesCleared ≤ 1000000000)
    (hpoints : FitsInt (pointsAt lines * s.level))
    (hscore : FitsInt (s.score + pointsAt lines * s.level)) :
    updateScore32 lines s = updateScore lines s := by
  have hdiv : (s.linesCleared + lines).tdiv 10 = (s.linesCleared + lines) / 10 :=
    Int.tdiv_eq_ediv (by omega) (by decide)
  have e1 := wrapInt_of_fits _ hpoints
  have e2 := wrapInt_of_fits _ hscore
  have e3 : wrapInt (s.linesCleared + lines) = s.linesCleared + lines :=
    wrapInt_of_fits _ (by unfold FitsInt INT_MIN INT_MAX; omega)
  have e4 : wrapInt ((s.linesCleared + lines).tdiv 10) = (s.linesCleared + lines).tdiv 10 :=
    wrapInt_of_fits _ (by unfold FitsInt INT_MIN INT_MAX; omega)
  have e5 : wrapInt (1 + (s.linesCleared + lines).tdiv 10)
      = 1 + (s.linesCleared + lines).tdiv 10 :=
    wrapInt_of_fits _ (by unfold FitsInt INT_MIN INT_MAX; omega)
  have e6 : wrapInt (1 + (s.linesCleared + lines).tdiv 10 - 1)
      = 1 + (s.linesCleared + lines).tdiv 10 - 1 :=
    wrapInt_of_fits _ (by unfold FitsInt INT_MIN INT_MAX; omega)
  have e7 : wrapInt ((1 + (s.linesCleared + lines).tdiv 10 - 1) * 20)
      = (1 + (s.linesCleared + lines).tdiv 10 - 1) * 20 :=
    wrapInt_of_fits _ (by unfold FitsInt INT_MIN INT_MAX; omega)
  have e8 : wrapInt (500 - (1 + (s.linesCleared + lines).tdiv 10 - 1) * 20)
      = 500 - (1 + (s.linesCleared + lines).tdiv 10 - 1) * 20 :=
    wrapInt_of_fits _ (by unfold FitsInt INT_MIN INT_MAX; omega)
  simp only [updateScore32, updateScore, e1, e2, e3, e4, e5, e6, e7, e8]

/-- C7 as stated fails: `score += POINTS[lines] * level` is 32-bit arithmetic.
With four lines, from score `INT_MAX - 100` at level 1 the score becomes
-2147482549, not 2147484747; from score 0 at level 2000000 it becomes
-1894967296, not 2400000000; from score 2147000000 at level 1201 with 12000
lines cleared it becomes -2146526096, not 2148441200. -/
theorem updateScore32_score_wraps :
    (updateScore32 4 nearMaxState).score = -2147482549 ∧
    (updateScore32 4 highLevelState).score = -1894967296 ∧
    (updateScore32 4 lateGameState).score = -2146526096 ∧
    ¬ ∀ (lines : Int) (s : State), 0 ≤ lines → lines ≤ 4 → 1 ≤ s.level →
        FitsInt s.score → FitsInt s.level →
        (updateScore32 lines s).score = s.score + specScoreTable lines * s.level := by
  refine ⟨by decide, by decide, by decide, fun h => ?_⟩
  exact absurd (h 4 nearMaxState (by decide) (by decide) (by decide) (by decide) (by decide))
    (by decide)

/-- C7, amended: for `lines` in 0..4 and `level ≥ 1`, whenever the table value
times the level and the score plus that product fit a 32-bit `int`,
`updateScore` adds the specification's table value for `lines` times the level
held before the call, and is then the unbounded computation; so, with room
left in the score, one line at level 1 adds 40, two lines at level 1 add 100,
three lines at level 3 add 900 and four lines at level 5 add 6000. -/
theorem updateScore32_score_delta (lines : Int) (s : State) (h0 : 0 ≤ lines) (h4 : lines ≤ 4)
    (hl : 1 ≤ s.level) (hpoints : specScoreTable lines * s.level ≤ INT_MAX)
    (hscore : FitsInt (s.score + specScoreTable lines * s.level)) :
    (updateScore32 lines s).score = s.score + specScoreTable lines * s.level ∧
    (updateScore32 lines s).score = (updateScore lines s).score ∧
    (s.level = 1 → FitsInt (s.score + 40) → (updateScore32 1 s).score = s.score + 40) ∧
    (s.level = 1 → FitsInt (s.score + 100) → (updateScore32 2 s).score = s.score + 100) ∧
    (s.level = 3 → FitsInt (s.score + 900) → (updateScore32 3 s).score = s.score + 900) ∧
    (s.level = 5 → FitsInt (s.score + 6000) → (updateScore32 4 s).score = s.score + 6000) := by
  have hgen : ∀ (n : Int), 0 ≤ n → n ≤ 4 → pointsAt n * s.level ≤ INT_MAX →
      FitsInt (s.score + pointsAt n * s.level) →
      (updateScore32 n s).score = s.score + pointsAt n * s.level := by
    intro n _ _ hp hs
    have hnonneg : 0 ≤ pointsAt n * s.level :=
      Int.mul_nonneg (pointsAt_nonneg n) (by omega)
    have e1 : wrapInt (pointsAt n * s.level) = pointsAt n * s.level :=
      wrapInt_of_fits _ ⟨by unfold INT_MIN; omega, hp⟩
    show wrapInt (s.score + wrapInt (pointsAt n * s.level)) = s.score + pointsAt n * s.level
    rw [e1, wrapInt_of_fits _ hs]
  have htab := pointsAt_eq_specScoreTable lines h0 h4
  rw [← htab] at hpoints hscore ⊢
  refine ⟨hgen lines h0 h4 hpoints hscore, hgen lines h0 h4 hpoints hscore, ?_, ?_, ?_, ?_⟩
  · intro h1 hfit
    have hp : pointsAt 1 * s.level = 40 := by rw [h1]; decide
    rw [hgen 1 (by decide) (by decide) (by rw [hp]; decide) (by rw [hp]; exact hfit), hp]
  · intro h1 hfit
    have hp : pointsAt 2 * s.level = 100 := by rw [h1]; decide
    rw [hgen 2 (by decide) (by decide) (by rw [hp]; decide) (by rw [hp]; exact hfit), hp]
  · intro h1 hfit
    have hp : pointsAt 3 * s.level = 900 := by rw [h1]; decide
    rw [hgen 3 (by decide) (by decide) (by rw [hp]; decide) (by rw [hp]; exact hfit), hp]
  · intro h1 hfit
    have hp : pointsAt 4 * s.level = 6000 := by rw [h1]; decide
    rw [hgen 4 (by decide) (by decide) (by rw [hp]; decide) (by rw [hp]; exact hfit), hp]

/-- C7, amended, at four lines and level 5 from score 0: the score becomes 6000. -/
theorem updateScore32_score_delta_witness :
    (updateScore32 4 { sampleState emptyBoard with level := 5 }).score = 6000 ∧
    (updateScore32 4 { sampleState emptyBoard with level := 5 }).score
      = (updateScore 4 { sampleState emptyBoard with level := 5 }).score :=
  have h := updateScore32_score_delta 4 { sampleState emptyBoard with level := 5 }
    (by decide) (by decide) (by decide) (by decide) (by decide)
  ⟨h.1, h.2.1⟩

end TetrisBoard
